import Mathlib

/-!
Verification of the reconciliation core of the Indonesia BODS mapping
(`src/statements.js`).

The program folds over a list of disclosure `transactions`, derives BODS
statements (entity / person / ownership-or-control) from each one, deduplicates
them against a global set of already-emitted statement identifiers, computes
`replacesStatements` links against the previous transaction's full statement
set, and synthesizes closing statements for ownership relationships that
disappeared without replacement.

Modelling notes (shallow embedding of the JavaScript source):
* JavaScript values that may be `undefined` are modelled as `Option`;
  `undefined === undefined` is `true` in JavaScript, which is mirrored by
  `none = none`.
* `statementID` in the source is an xxhash of the JSON serialization of the
  statement's source data (the hash library is external to the repository).
  Modelled from the spec: a content-derived identifier, i.e. an injective
  function of the hashed payload; `StatementId` keeps the payload itself.
  The uuidv4 identifiers of synthesized closing statements are modelled as a
  distinct constructor over a counter threaded through the run.
* The JavaScript statement objects carry further presentation-only fields
  (names, addresses, `source`, `publicationDetails`).  The reconciler never
  reads them, and they are functions of the same raw data that already
  determines the content-derived `statementID`, so they are omitted from the
  `Statement` record.
* A closing statement is built with `Object.assign({}, ps)`, a shallow copy:
  its `interests` array is the very array of the copied statement.  This
  aliasing is modelled by a store of interest records (`List Interest`);
  each ownership statement holds an index (`interestsRef`) into the store,
  and the closing pass updates the store in place.
* Code that can throw a `TypeError` (dereferencing `undefined`) is modelled
  in the `Except Unit` monad; a thrown exception aborts the run.
-/

/-- Raw data of one beneficial owner (`bo_datum`): the fields of the
`data_bo` entries that `src/statements.js` reads.  Every field may be absent. -/
structure BOData where
  hubungan_bo : Option String
  nama_lengkap : Option String
  tanggal_lahir : Option String
  tempat_lahir : Option String
  kewarganegaraan : Option String
  negara : Option String
  npwp : Option String
  jenis_identitas : Option String
  nomor_identitas : Option String
  alamat : Option String
  rt : Option String
  rw : Option String
  kelurahan : Option String
  kecamatan : Option String
  kabupaten : Option String
  provinisi : Option String
deriving DecidableEq, Repr, Inhabited

/-- The `sourceData` of a transaction: a copy of the transaction record with
`data_bo`, `nama_korporasi` and `jenis_transaksi` deleted.  The named fields
are the ones `source()` reads; `other` stands for all remaining
per-transaction fields (e.g. a transaction number), which still take part in
the content hash of person and ownership statements. -/
structure SourceData where
  jenis_pelapor : Option String
  nama_pelapor : Option String
  nama_pic : Option String
  other : List (String × String)
deriving DecidableEq, Repr, Inhabited

/-- The `companyData` record built per transaction:
`{'nama_korporasi': transaction['nama_korporasi']}`. -/
structure CompanyData where
  nama_korporasi : Option String
deriving DecidableEq, Repr, Inhabited

/-- One transaction of the input: the three fields the code reads by name and
the residue that becomes `sourceData`. -/
structure Transaction where
  nama_korporasi : Option String
  jenis_transaksi : Option String
  data_bo : List BOData
  rest : SourceData
deriving DecidableEq, Repr, Inhabited

/-- The whole input: `data['data']['kedudukan']` and
`data['data']['data_transaksi']`. -/
structure InputData where
  kedudukan : Option String
  data_transaksi : List Transaction
deriving DecidableEq, Repr, Inhabited

/-- A statement identifier.  Modelled from the spec: `statementID(data)` is a
content hash (external xxhash library), assumed collision-free, so a hash
identifier is modelled as the hashed payload itself, one constructor per call
shape in the source.  `fresh` models the uuidv4 identifiers generated for
synthesized closing statements (assumed distinct from all hash identifiers
and from each other). -/
inductive StatementId where
  | companyHash (data : CompanyData) (companyLocation : Option String)
  | personHash (data : BOData) (sourceData : SourceData)
  | ownershipHash (companyStatementID personStatementID : StatementId)
      (data : BOData) (sourceData : SourceData)
  | fresh (n : Nat)
deriving DecidableEq, Repr, Inhabited

/-- One entry of a statement's `identifiers` array. -/
structure Identifier where
  scheme : String
  schemeName : Option String
  id : Option String
deriving DecidableEq, Repr, Inhabited

/-- One entry of an ownership statement's `interests` array. -/
structure Interest where
  type : String
  details : Option String
  interestLevel : String
  beneficialOwnershipOrControl : Bool
  endDate : Option String
deriving DecidableEq, Repr, Inhabited

/-- A BODS statement, restricted to the fields the reconciler reads or
writes.  `subject` holds `subject.describedByEntityStatement`,
`interestedParty` holds `interestedParty.describedByPersonStatement`;
`none` models an absent field.  `interestsRef` is the index of the
statement's single interest record in the interest store.
`replacesStatements = none` models the absent property before the
reconciler assigns it. -/
structure Statement where
  statementID : StatementId
  statementType : String
  identifiers : List Identifier
  subject : Option StatementId
  interestedParty : Option StatementId
  interestsRef : Option Nat
  replacesStatements : Option (List StatementId)
deriving DecidableEq, Repr, Inhabited

/-- `companyIdentifier(data)` from the source. -/
def companyIdentifier (data : CompanyData) : Identifier :=
  { scheme := "ID-KHH"
    schemeName := some "Ministry of Justice & Human Rights"
    id := data.nama_korporasi }

/-- `mapCompanyStatement(data, companyLocation, sourceData)` from the source
(reconciler-relevant fields; `sourceData` only feeds the omitted `source`
display field, not the hash). -/
def mapCompanyStatement (data : CompanyData) (companyLocation : Option String)
    (sourceData : SourceData) : Statement :=
  { statementID := .companyHash data companyLocation
    statementType := "entityStatement"
    identifiers := [companyIdentifier data]
    subject := none
    interestedParty := none
    interestsRef := none
    replacesStatements := none }

/-- `mapPersonStatement(data, sourceData)` from the source.  The second
identifier's scheme is the template string `MISC-ID-${data['jenis_identitas']}`;
JavaScript renders an undefined field as the literal text "undefined". -/
def mapPersonStatement (data : BOData) (sourceData : SourceData) : Statement :=
  { statementID := .personHash data sourceData
    statementType := "personStatement"
    identifiers :=
      [ { scheme := "ID-DJP"
          schemeName := some "Director General of Taxes"
          id := data.npwp }
      , { scheme := "MISC-ID-" ++ (match data.jenis_identitas with
            | some s => s
            | none => "undefined")
          schemeName := data.jenis_identitas
          id := data.nomor_identitas } ]
    subject := none
    interestedParty := none
    interestsRef := none
    replacesStatements := none }

/-- `mapOwnershipOrControlStatement(companyStatement, personStatement, data,
sourceData)` from the source.  The fresh `interests` array entry is allocated
as a new cell of the interest store; the returned statement points at it.
The source object carries no `identifiers` property at all, modelled as the
empty list (no code path reads it). -/
def mapOwnershipOrControlStatement (companyStatement personStatement : Statement)
    (data : BOData) (sourceData : SourceData) (store : List Interest) :
    Statement × List Interest :=
  ({ statementID := .ownershipHash companyStatement.statementID
        personStatement.statementID data sourceData
     statementType := "ownershipOrControlStatement"
     identifiers := []
     subject := some companyStatement.statementID
     interestedParty := some personStatement.statementID
     interestsRef := some store.length
     replacesStatements := none }
   , store ++ [{ type := "other-influence-or-control"
                 details := data.hubungan_bo
                 interestLevel := "direct"
                 beneficialOwnershipOrControl := true
                 endDate := none }])

/-- `matchingIdentifiers(newStatement, oldStatement)` from the source: some
identifier of the new statement agrees with some identifier of the old one on
`scheme` and `id` (`schemeName` is not compared). -/
def matchingIdentifiers (newStatement oldStatement : Statement) : Bool :=
  newStatement.identifiers.any fun i =>
    oldStatement.identifiers.any fun oldId =>
      decide (oldId.scheme = i.scheme) && decide (oldId.id = i.id)

/-- `replacedStatements(newStatement, oldStatements)` from the source. -/
def replacedStatements (newStatement : Statement) (oldStatements : List Statement) :
    List StatementId :=
  (oldStatements.filter fun oldStatement =>
    decide (oldStatement.statementType = newStatement.statementType)
      && matchingIdentifiers newStatement oldStatement
  ).map (·.statementID)

/-- `matchingIdentifiers(newStatement, oldStatement)` applied to the result of
an `Array.find` that may have produced `undefined`.  When the old statement is
`undefined` and the new statement has at least one identifier, the first
callback evaluation dereferences `undefined.identifiers` and throws a
`TypeError`; with an empty identifier list the callback never runs and the
call returns `false`. -/
def matchingIdentifiersOpt (newStatement : Statement) (oldStatement : Option Statement) :
    Except Unit Bool :=
  match oldStatement with
  | some o => .ok (matchingIdentifiers newStatement o)
  | none => if newStatement.identifiers.isEmpty then .ok false else .error ()

/-- `Array.filter` with a predicate that may throw: evaluate the predicate on
each element in order, aborting at the first exception. -/
def filterE (p : α → Except Unit Bool) : List α → Except Unit (List α)
  | [] => .ok []
  | x :: xs => do
    let b ← p x
    let rest ← filterE p xs
    .ok (if b then x :: rest else rest)

/-- The filter callback inside `replacedOwnershipStatements`: for an old
statement of the same type, dereference its `interestedParty` and `subject`
cross-references (throwing when the field itself is absent), resolve them in
`oldStatements`, and require both resolved statements to match the new
interested party resp. the new subject on identifiers.  `&&` short-circuits:
the subject side is only evaluated when the interested-party side matched. -/
def ownershipReplacePred (newStatement newInterestedParty newSubject : Statement)
    (oldStatements : List Statement) (s : Statement) : Except Unit Bool :=
  if s.statementType = newStatement.statementType then
    match s.interestedParty with
    | none => .error ()
    | some ipRef =>
      let oldInterestedParty := oldStatements.find? fun sp => decide (sp.statementID = ipRef)
      match s.subject with
      | none => .error ()
      | some subjRef =>
        let oldSubject := oldStatements.find? fun sp => decide (sp.statementID = subjRef)
        do
          let m1 ← matchingIdentifiersOpt newInterestedParty oldInterestedParty
          if m1 then matchingIdentifiersOpt newSubject oldSubject else .ok false
  else .ok false

/-- `replacedOwnershipStatements(newStatement, newInterestedParty, newSubject,
oldStatements)` from the source. -/
def replacedOwnershipStatements (newStatement newInterestedParty newSubject : Statement)
    (oldStatements : List Statement) : Except Unit (List StatementId) := do
  let matched ← filterE
    (ownershipReplacePred newStatement newInterestedParty newSubject oldStatements)
    oldStatements
  .ok (matched.map (·.statementID))

/-- The state carried across transactions by `statements()`: the global
`seenStatementIds` set, the previous transaction's full statement list
`prevTransactionStatements`, the store of interest records, and the supply
counter for fresh (uuidv4) closing identifiers. -/
structure RecState where
  seen : List StatementId
  prev : List Statement
  store : List Interest
  counter : Nat
deriving DecidableEq, Repr, Inhabited

/-- The dedup-and-link step the source performs for a company or person
candidate (`if (!seenStatementIds.has(...)) { seenStatementIds.add(...);
x.replacesStatements = replacedStatements(x, prevTransactionStatements);
newStatements.push(x) }`): returns the updated state, the candidate in its
final form (with its replacement links when new), and whether it was new. -/
def dedupStep (st : RecState) (cand : Statement) : RecState × Statement × Bool :=
  if cand.statementID ∈ st.seen then (st, cand, false)
  else ({ st with seen := cand.statementID :: st.seen }
        , { cand with replacesStatements := some (replacedStatements cand st.prev) }
        , true)

/-- The same dedup-and-link step for an ownership candidate, whose links come
from `replacedOwnershipStatements` (which may throw). -/
def dedupOwnershipStep (st : RecState) (cand personStatement companyStatement : Statement) :
    Except Unit (RecState × Statement × Bool) :=
  if cand.statementID ∈ st.seen then .ok (st, cand, false)
  else do
    let repl ← replacedOwnershipStatements cand personStatement companyStatement st.prev
    .ok ({ st with seen := cand.statementID :: st.seen }
         , { cand with replacesStatements := some repl }
         , true)

/-- One iteration of the `transaction['data_bo'].forEach` loop in
`statements()`: derive the person statement, deduplicate it, then derive the
ownership statement linking the company and person statements and deduplicate
it.  Both candidates are appended to `transactionStatements` in either case;
only new ones are appended to `newStatements`. -/
def boStep (sourceData : SourceData) (companyStatement : Statement)
    (st : RecState) (transactionStatements newStatements : List Statement)
    (bo_datum : BOData) :
    Except Unit (RecState × List Statement × List Statement) := do
  let personData := { bo_datum with hubungan_bo := none }
  let (st1, personStatement, pNew) := dedupStep st (mapPersonStatement personData sourceData)
  let ts1 := transactionStatements ++ [personStatement]
  let ns1 := if pNew then newStatements ++ [personStatement] else newStatements
  let (o0, store1) :=
    mapOwnershipOrControlStatement companyStatement personStatement bo_datum
      sourceData st1.store
  let r ← dedupOwnershipStep { st1 with store := store1 } o0 personStatement companyStatement
  .ok (r.1, ts1 ++ [r.2.1], if r.2.2 then ns1 ++ [r.2.1] else ns1)

/-- The `transaction['data_bo'].forEach` loop in `statements()`. -/
def processBos (sourceData : SourceData) (companyStatement : Statement)
    (st : RecState) (transactionStatements newStatements : List Statement) :
    List BOData → Except Unit (RecState × List Statement × List Statement)
  | [] => .ok (st, transactionStatements, newStatements)
  | bo_datum :: bos => do
    let r ← boStep sourceData companyStatement st transactionStatements newStatements bo_datum
    processBos sourceData companyStatement r.1 r.2.1 r.2.2 bos

/-- The coverage test of the closing pass: some current candidate has the
given statementID, or some current candidate's `replacesStatements` contains
it (`s.replacesStatements && s.replacesStatements.includes(...)`; an empty
array is truthy in JavaScript, so `some []` still reaches `includes`). -/
def coveredBy (transactionStatements : List Statement) (psId : StatementId) : Bool :=
  (transactionStatements.any fun s => decide (s.statementID = psId)) ||
  (transactionStatements.any fun s =>
    match s.replacesStatements with
    | some rs => rs.any fun i => decide (i = psId)
    | none => false)

/-- Set the `endDate` of the interest record at the given store index. -/
def setEndDate (today : String) : List Interest → Nat → List Interest
  | [], _ => []
  | interest :: rest, 0 => { interest with endDate := some today } :: rest
  | interest :: rest, n + 1 => interest :: setEndDate today rest n

/-- The closing pass of `statements()`: for every ownership statement of the
previous transaction that is neither re-listed nor replaced by a current
candidate, emit a shallow copy with a fresh (uuidv4) identifier and
`replacesStatements = [ps.statementID]`.  The shallow copy shares the copied
statement's `interests` array, so setting the end date updates the shared
interest record in the store (reached through `interestsRef` by the old
statement as well). -/
def closurePass (today : String) (transactionStatements : List Statement)
    (counter : Nat) (store : List Interest) :
    List Statement → Nat × List Interest × List Statement
  | [] => (counter, store, [])
  | ps :: rest =>
    if ps.statementType = "ownershipOrControlStatement" then
      if coveredBy transactionStatements ps.statementID then
        closurePass today transactionStatements counter store rest
      else
        let endingStatement := { ps with
          statementID := StatementId.fresh counter
          replacesStatements := some [ps.statementID] }
        let store1 := match ps.interestsRef with
          | some i => setEndDate today store i
          | none => store
        let next := closurePass today transactionStatements (counter + 1) store1 rest
        (next.1, next.2.1, endingStatement :: next.2.2)
    else closurePass today transactionStatements counter store rest

/-- The body of the `data['data']['data_transaksi'].flatMap` in
`statements()`: build `sourceData` and the company statement, deduplicate it,
process each `data_bo` entry, run the closing pass against the previous
transaction's statement list, and finish by making the current candidate list
the new `prevTransactionStatements`.  Returns the statements newly emitted
for this transaction. -/
def processTransaction (today : String) (companyLocation : Option String)
    (st : RecState) (transaction : Transaction) :
    Except Unit (RecState × List Statement) := do
  let sourceData := transaction.rest
  let companyData : CompanyData := { nama_korporasi := transaction.nama_korporasi }
  let (st1, companyStatement, cNew) :=
    dedupStep st (mapCompanyStatement companyData companyLocation sourceData)
  let ts0 := [companyStatement]
  let ns0 : List Statement := if cNew then [companyStatement] else []
  let r ← processBos sourceData companyStatement st1 ts0 ns0 transaction.data_bo
  let (st2, transactionStatements, newStatements) := r
  let closed := closurePass today transactionStatements st2.counter st2.store st2.prev
  .ok ({ st2 with prev := transactionStatements, counter := closed.1, store := closed.2.1 }
       , newStatements ++ closed.2.2)

/-- The fold over `data_transaksi`, accumulating the flatMap output. -/
def runTransactions (today : String) (companyLocation : Option String)
    (st : RecState) (output : List Statement) :
    List Transaction → Except Unit (RecState × List Statement)
  | [] => .ok (st, output)
  | t :: rest => do
    let r ← processTransaction today companyLocation st t
    runTransactions today companyLocation r.1 (output ++ r.2) rest

/-- The initial reconciler state: empty seen set, no previous transaction. -/
def initState : RecState :=
  { seen := [], prev := [], store := [], counter := 0 }

/-- `statements(data)` from the source: the emitted statement list, paired
with the final interest store through which the emitted ownership statements'
`interests` are read (`today` stands for the `new Date()` the source takes at
the time of the run). -/
def statements (today : String) (data : InputData) :
    Except Unit (List Statement × List Interest) := do
  let r ← runTransactions today data.kedudukan initState [] data.data_transaksi
  .ok (r.2, r.1.store)

/-! ## Concrete fixtures used by witnesses and counterexamples -/

/-- A per-transaction source-data record carrying a transaction number. -/
def srcA : SourceData :=
  { jenis_pelapor := none, nama_pelapor := none, nama_pic := some "PIC"
    other := [("no_transaksi", "1")] }

/-- The same source data with only the transaction number changed. -/
def srcB : SourceData := { srcA with other := [("no_transaksi", "2")] }

/-- One beneficial-owner record. -/
def boX : BOData :=
  { hubungan_bo := some "director", nama_lengkap := some "Alice"
    tanggal_lahir := none, tempat_lahir := none
    kewarganegaraan := some "WNI", negara := none
    npwp := some "123", jenis_identitas := some "KTP", nomor_identitas := some "99"
    alamat := none, rt := none, rw := none, kelurahan := none
    kecamatan := none, kabupaten := none, provinisi := none }

/-- A transaction with one owner. -/
def tA : Transaction :=
  { nama_korporasi := some "PT X", jenis_transaksi := some "baru"
    data_bo := [boX], rest := srcA }

/-- The same transaction, differing only in the transaction number carried in
the source data. -/
def tB : Transaction := { tA with rest := srcB }

/-- The same transaction with the owner removed. -/
def tC : Transaction := { tA with data_bo := [] }

/-- A prior ownership statement whose `subject` and `interestedParty` refer
to statement identifiers that are absent from any comparison list it is put
into: a dangling cross-reference. -/
def danglingOwn : Statement :=
  { statementID := .fresh 77, statementType := "ownershipOrControlStatement"
    identifiers := [], subject := some (.fresh 78)
    interestedParty := some (.fresh 79), interestsRef := none
    replacesStatements := none }

/-- A new person statement (nonempty identifier list). -/
def newIPx : Statement := mapPersonStatement boX srcA

/-- A new company statement. -/
def newSubjX : Statement :=
  mapCompanyStatement { nama_korporasi := some "PT X" } (some "Jakarta") srcA

/-- A new ownership statement linking `newSubjX` and `newIPx`. -/
def newOwnX : Statement :=
  (mapOwnershipOrControlStatement newSubjX newIPx boX srcA []).1

/-! ## Error propagation of `filterE` and the dangling-reference behaviour -/

/-- If the predicate throws on some member of the list, the whole filter
throws. -/
theorem filterE_error_of_mem (p : α → Except Unit Bool) (xs : List α) (x : α)
    (hx : x ∈ xs) (hpx : p x = .error ()) : filterE p xs = .error () := by
  induction xs with
  | nil => cases hx
  | cons a xs ih =>
    rcases List.mem_cons.mp hx with rfl | hx'
    · show (do
        let b ← p x
        let rest ← filterE p xs
        Except.ok (if b then x :: rest else rest)) = Except.error ()
      rw [hpx]; rfl
    · show (do
        let b ← p a
        let rest ← filterE p xs
        Except.ok (if b then a :: rest else rest)) = Except.error ()
      cases hpa : p a with
      | error e => cases e; rfl
      | ok b => rw [ih hx']; cases b <;> rfl

/-- The amended dangling-reference behaviour: if some prior statement of the
matching type has an `interestedParty` reference that resolves to no element
of `oldStatements`, and the new interested-party statement has a nonempty
identifier list, then `replacedOwnershipStatements` fails (the source throws
a `TypeError`) instead of returning with the prior statement excluded. -/
theorem replacedOwnershipStatements_dangling_error
    (newStatement newInterestedParty newSubject : Statement)
    (oldStatements : List Statement) (s : Statement) (r : StatementId)
    (hs : s ∈ oldStatements)
    (hty : s.statementType = newStatement.statementType)
    (hip : s.interestedParty = some r)
    (hdangle : ∀ sp ∈ oldStatements, sp.statementID ≠ r)
    (hne : newInterestedParty.identifiers ≠ []) :
    replacedOwnershipStatements newStatement newInterestedParty newSubject oldStatements
      = .error () := by
  have hfind : oldStatements.find? (fun sp => decide (sp.statementID = r)) = none := by
    rw [List.find?_eq_none]
    intro sp hsp
    simpa using hdangle sp hsp
  have hmi : matchingIdentifiersOpt newInterestedParty none = .error () := by
    unfold matchingIdentifiersOpt
    rw [if_neg (by simpa [List.isEmpty_iff] using hne)]
  have hpred : ownershipReplacePred newStatement newInterestedParty newSubject
      oldStatements s = .error () := by
    unfold ownershipReplacePred
    rw [if_pos hty, hip]
    cases hsub : s.subject with
    | none => simp [hfind]
    | some subjRef =>
      simp only [hsub, hfind, hmi]
      rfl
  have hfe := filterE_error_of_mem _ _ _ hs hpred
  unfold replacedOwnershipStatements
  rw [hfe]
  rfl

/-- Counterexample to the claim that `replacedOwnershipStatements` never
fails on a dangling reference: with a prior ownership statement whose
cross-references resolve to nothing and a new interested party with a
nonempty identifier list, the call throws instead of returning normally. -/
theorem replacedOwnershipStatements_dangling_cex :
    replacedOwnershipStatements newOwnX newIPx newSubjX [danglingOwn] = .error () := by
  rfl

/-- Witness for `replacedOwnershipStatements_dangling_error` at a concrete
input. -/
theorem replacedOwnershipStatements_dangling_error_witness :
    danglingOwn ∈ [danglingOwn]
    ∧ danglingOwn.statementType = newOwnX.statementType
    ∧ danglingOwn.interestedParty = some (.fresh 79)
    ∧ (∀ sp ∈ [danglingOwn], sp.statementID ≠ .fresh 79)
    ∧ newIPx.identifiers ≠ []
    ∧ replacedOwnershipStatements newOwnX newIPx newSubjX [danglingOwn] = .error () :=
  ⟨by decide, by decide, by decide, by decide, by decide,
   replacedOwnershipStatements_dangling_error newOwnX newIPx newSubjX [danglingOwn]
     danglingOwn (.fresh 79) (by decide) (by decide) (by decide) (by decide) (by decide)⟩

/-! ## Matching on absent identifier values (C8) -/

/-- Two same-type statements that each carry an identifier with the same
scheme and an absent (`undefined`) id value match — identifier comparison is
strict equality of the `(scheme, id)` pair and `undefined === undefined`
holds — and therefore a replacement link from the new statement to the old
one is created, whatever the rest of their content. -/
theorem matchingIdentifiers_absent_id
    (a b : Statement) (sc : String) (sn1 sn2 : Option String)
    (hty : a.statementType = b.statementType)
    (ha : ({ scheme := sc, schemeName := sn1, id := none } : Identifier) ∈ a.identifiers)
    (hb : ({ scheme := sc, schemeName := sn2, id := none } : Identifier) ∈ b.identifiers) :
    matchingIdentifiers a b = true ∧ b.statementID ∈ replacedStatements a [b] := by
  have hmatch : matchingIdentifiers a b = true := by
    unfold matchingIdentifiers
    rw [List.any_eq_true]
    refine ⟨_, ha, ?_⟩
    rw [List.any_eq_true]
    exact ⟨_, hb, by simp⟩
  refine ⟨hmatch, ?_⟩
  unfold replacedStatements
  simp [List.filter, hty.symm, hmatch]

/-! ## Relational matching characterization (C5) -/

/-- Resolve a cross-reference in a comparison list: `undefined` when the
field is absent or no statement carries the referenced identifier. -/
def resolveRef (oldStatements : List Statement) (ref : Option StatementId) :
    Option Statement :=
  ref.bind fun r => oldStatements.find? fun sp => decide (sp.statementID = r)

/-- The relational matching condition, stated as a pure predicate following
the spec's words: a prior statement is replaced iff it has the new statement's
type and the prior interested-party and subject statements — resolved by
looking its cross-references up in `oldStatements` — both match the new
interested party resp. the new subject on identifiers.  A reference that
resolves to nothing counts as no match.  Note that neither the new nor the
prior ownership statement's own identifiers occur. -/
def specOwnershipMatch (newStatement newInterestedParty newSubject : Statement)
    (oldStatements : List Statement) (s : Statement) : Bool :=
  decide (s.statementType = newStatement.statementType)
  && ((resolveRef oldStatements s.interestedParty).elim false
        (matchingIdentifiers newInterestedParty))
  && ((resolveRef oldStatements s.subject).elim false
        (matchingIdentifiers newSubject))

/-- A successful `filterE` ran its predicate successfully on every element. -/
theorem filterE_ok_all (p : α → Except Unit Bool) (xs : List α) (ys : List α)
    (h : filterE p xs = .ok ys) : ∀ x ∈ xs, ∃ b, p x = .ok b := by
  induction xs generalizing ys with
  | nil => intro x hx; cases hx
  | cons a xs ih =>
    intro x hx
    rw [show filterE p (a :: xs) = (do
      let b ← p a
      let rest ← filterE p xs
      Except.ok (if b then a :: rest else rest)) from rfl] at h
    cases hpa : p a with
    | error e => rw [hpa] at h; cases h
    | ok b =>
      rw [hpa] at h
      cases hrest : filterE p xs with
      | error e => rw [hrest] at h; cases h
      | ok rest =>
        rcases List.mem_cons.mp hx with rfl | hx'
        · exact ⟨b, hpa⟩
        · exact ih rest hrest x hx'

/-- When the predicate succeeds everywhere with values given by a Boolean
function, `filterE` is the pure filter by that function. -/
theorem filterE_eq_filter (p : α → Except Unit Bool) (q : α → Bool) (xs : List α)
    (h : ∀ x ∈ xs, p x = .ok (q x)) : filterE p xs = .ok (xs.filter q) := by
  induction xs with
  | nil => rfl
  | cons a xs ih =>
    show (do
      let b ← p a
      let rest ← filterE p xs
      Except.ok (if b then a :: rest else rest)) = _
    rw [h a (List.mem_cons_self a xs), ih fun x hx => h x (List.mem_cons_of_mem a hx)]
    cases hq : q a
    · rw [show List.filter q (a :: xs) = List.filter q xs by simp [List.filter_cons, hq]]
      rfl
    · rw [show List.filter q (a :: xs) = a :: List.filter q xs by
        simp [List.filter_cons, hq]]
      rfl

/-- Reduction of `matchingIdentifiersOpt` on a present statement. -/
theorem matchingIdentifiersOpt_some (n o : Statement) :
    matchingIdentifiersOpt n (some o) = .ok (matchingIdentifiers n o) := rfl

/-- Reduction of `Except` bind on a success. -/
theorem except_bind_ok (a : α) (f : α → Except Unit β) :
    (Except.ok a : Except Unit α) >>= f = f a := rfl

/-- Reduction of `Except` bind on an error. -/
theorem except_bind_err (f : α → Except Unit β) :
    (Except.error () : Except Unit α) >>= f = Except.error () := rfl

/-- Shape of the filter predicate once the type matches and both
cross-reference fields are present. -/
theorem ownershipReplacePred_eq (n ip subj : Statement) (olds : List Statement)
    (s : Statement) (ipRef subjRef : StatementId)
    (hty : s.statementType = n.statementType)
    (hip : s.interestedParty = some ipRef) (hsub : s.subject = some subjRef) :
    ownershipReplacePred n ip subj olds s = (do
      let m1 ← matchingIdentifiersOpt ip
        (olds.find? fun sp => decide (sp.statementID = ipRef))
      if m1 then
        matchingIdentifiersOpt subj (olds.find? fun sp => decide (sp.statementID = subjRef))
      else .ok false) := by
  unfold ownershipReplacePred
  rw [if_pos hty, hip, hsub]

/-- The filter predicate throws when the type matches and the
`interestedParty` field is absent. -/
theorem ownershipReplacePred_noIP (n ip subj : Statement) (olds : List Statement)
    (s : Statement) (hty : s.statementType = n.statementType)
    (hip : s.interestedParty = none) :
    ownershipReplacePred n ip subj olds s = .error () := by
  unfold ownershipReplacePred
  rw [if_pos hty, hip]

/-- The filter predicate throws when the type matches, the `interestedParty`
field is present and the `subject` field is absent. -/
theorem ownershipReplacePred_noSubj (n ip subj : Statement) (olds : List Statement)
    (s : Statement) (ipRef : StatementId) (hty : s.statementType = n.statementType)
    (hip : s.interestedParty = some ipRef) (hsub : s.subject = none) :
    ownershipReplacePred n ip subj olds s = .error () := by
  unfold ownershipReplacePred
  rw [if_pos hty, hip, hsub]

/-- The filter predicate is `false` on a type mismatch. -/
theorem ownershipReplacePred_noType (n ip subj : Statement) (olds : List Statement)
    (s : Statement) (hty : ¬ s.statementType = n.statementType) :
    ownershipReplacePred n ip subj olds s = .ok false := by
  unfold ownershipReplacePred
  rw [if_neg hty]

/-- A successful run of the filter predicate used by
`replacedOwnershipStatements` computes exactly `specOwnershipMatch`. -/
theorem ownershipReplacePred_ok_eq (n ip subj : Statement)
    (olds : List Statement) (s : Statement) (b : Bool)
    (h : ownershipReplacePred n ip subj olds s = .ok b) :
    b = specOwnershipMatch n ip subj olds s := by
  by_cases hty : s.statementType = n.statementType
  · cases hip : s.interestedParty with
    | none => rw [ownershipReplacePred_noIP n ip subj olds s hty hip] at h; cases h
    | some ipRef =>
      cases hsub : s.subject with
      | none => rw [ownershipReplacePred_noSubj n ip subj olds s ipRef hty hip hsub] at h; cases h
      | some subjRef =>
        rw [ownershipReplacePred_eq n ip subj olds s ipRef subjRef hty hip hsub] at h
        cases hfip : olds.find? (fun sp => decide (sp.statementID = ipRef)) with
        | none =>
          rw [hfip] at h
          by_cases hemp : ip.identifiers.isEmpty
          · rw [show matchingIdentifiersOpt ip none = .ok false by
                unfold matchingIdentifiersOpt; rw [if_pos hemp],
              except_bind_ok] at h
            simp only [Bool.false_eq_true, if_false] at h
            cases h
            simp [specOwnershipMatch, resolveRef, hip, hfip]
          · rw [show matchingIdentifiersOpt ip none = .error () by
                unfold matchingIdentifiersOpt; rw [if_neg hemp],
              except_bind_err] at h
            cases h
        | some o =>
          rw [hfip, matchingIdentifiersOpt_some, except_bind_ok] at h
          cases hm1 : matchingIdentifiers ip o with
          | false =>
            rw [hm1] at h
            simp only [Bool.false_eq_true, if_false] at h
            cases h
            simp [specOwnershipMatch, resolveRef, hip, hfip, hm1]
          | true =>
            rw [hm1] at h
            simp only [if_true] at h
            cases hfsub : olds.find? (fun sp => decide (sp.statementID = subjRef)) with
            | none =>
              rw [hfsub] at h
              by_cases hemp2 : subj.identifiers.isEmpty
              · rw [show matchingIdentifiersOpt subj none = .ok false by
                    unfold matchingIdentifiersOpt; rw [if_pos hemp2]] at h
                cases h
                simp [specOwnershipMatch, resolveRef, hip, hsub, hfip, hfsub, hm1]
              · rw [show matchingIdentifiersOpt subj none = .error () by
                    unfold matchingIdentifiersOpt; rw [if_neg hemp2]] at h
                cases h
            | some o2 =>
              rw [hfsub, matchingIdentifiersOpt_some] at h
              cases h
              simp [specOwnershipMatch, resolveRef, hip, hsub, hfip, hfsub, hm1, hty]
  · rw [ownershipReplacePred_noType n ip subj olds s hty] at h
    cases h
    simp [specOwnershipMatch, hty]

/-- C5: under a successful run, `replacedOwnershipStatements` returns exactly
the identifiers of the prior statements selected by the relational condition
`specOwnershipMatch` — prior interested party and prior subject, resolved via
the prior statement's cross-references, must both match the new interested
party resp. new subject on identifiers — and the new ownership statement's
own identifiers play no role in the result. -/
theorem replacedOwnershipStatements_relational (n ip subj : Statement)
    (olds : List Statement) (res : List StatementId)
    (h : replacedOwnershipStatements n ip subj olds = .ok res) :
    res = (olds.filter (specOwnershipMatch n ip subj olds)).map (·.statementID)
    ∧ ∀ ids, replacedOwnershipStatements { n with identifiers := ids } ip subj olds
        = .ok res := by
  have hinv : ∀ ids, replacedOwnershipStatements { n with identifiers := ids } ip subj olds
      = replacedOwnershipStatements n ip subj olds := fun ids => rfl
  refine ⟨?_, fun ids => (hinv ids).trans h⟩
  unfold replacedOwnershipStatements at h
  cases hfe : filterE (ownershipReplacePred n ip subj olds) olds with
  | error e => rw [hfe] at h; cases h
  | ok m =>
    rw [hfe, except_bind_ok] at h
    cases h
    have hall : ∀ x ∈ olds, ownershipReplacePred n ip subj olds x
        = .ok (specOwnershipMatch n ip subj olds x) := by
      intro x hx
      obtain ⟨b, hb⟩ := filterE_ok_all _ _ _ hfe x hx
      rw [hb, ownershipReplacePred_ok_eq n ip subj olds x b hb]
    have hfilter := filterE_eq_filter _ _ _ hall
    rw [hfe] at hfilter
    cases hfilter
    rfl

/-- The previous transaction's statements for the C5 witness. -/
def prevCompanyX : Statement :=
  mapCompanyStatement { nama_korporasi := some "PT X" } (some "Jakarta") srcA

/-- Previous person statement for the C5 witness. -/
def prevPersonX : Statement := mapPersonStatement { boX with hubungan_bo := none } srcA

/-- Previous ownership statement for the C5 witness. -/
def prevOwnX : Statement :=
  (mapOwnershipOrControlStatement prevCompanyX prevPersonX boX srcA []).1

/-- Previous transaction's full statement list for the C5 witness. -/
def oldsX : List Statement := [prevCompanyX, prevPersonX, prevOwnX]

/-- New person statement (same owner, new transaction number) for the C5
witness. -/
def newPersonB : Statement := mapPersonStatement { boX with hubungan_bo := none } srcB

/-- New ownership statement for the C5 witness. -/
def newOwnB : Statement :=
  (mapOwnershipOrControlStatement prevCompanyX newPersonB boX srcB []).1

/-- The result of the C5 witness call. -/
def resB : List StatementId :=
  (replacedOwnershipStatements newOwnB newPersonB prevCompanyX oldsX).toOption.getD []

/-- Witness for `replacedOwnershipStatements_relational` at a concrete
input. -/
theorem replacedOwnershipStatements_relational_witness :
    replacedOwnershipStatements newOwnB newPersonB prevCompanyX oldsX = .ok resB
    ∧ (resB = (oldsX.filter
          (specOwnershipMatch newOwnB newPersonB prevCompanyX oldsX)).map (·.statementID)
       ∧ ∀ ids, replacedOwnershipStatements { newOwnB with identifiers := ids }
           newPersonB prevCompanyX oldsX = .ok resB) :=
  ⟨rfl, replacedOwnershipStatements_relational newOwnB newPersonB prevCompanyX oldsX resB rfl⟩

/-! ## Replacement locality (C6) -/

/-- Every identifier returned by `replacedStatements` is the statementID of
some element of the comparison list. -/
theorem replacedStatements_mem (n : Statement) (olds : List Statement)
    (i : StatementId) (h : i ∈ replacedStatements n olds) :
    ∃ p ∈ olds, p.statementID = i := by
  unfold replacedStatements at h
  obtain ⟨p, hp, hpi⟩ := List.mem_map.mp h
  exact ⟨p, List.mem_of_mem_filter hp, hpi⟩

/-- A successful `filterE` returns a subset of its input. -/
theorem filterE_subset (p : α → Except Unit Bool) (xs ys : List α)
    (h : filterE p xs = .ok ys) : ∀ y ∈ ys, y ∈ xs := by
  induction xs generalizing ys with
  | nil => cases h; intro y hy; cases hy
  | cons a xs ih =>
    rw [show filterE p (a :: xs) = (do
      let b ← p a
      let rest ← filterE p xs
      Except.ok (if b then a :: rest else rest)) from rfl] at h
    cases hpa : p a with
    | error e => rw [hpa] at h; cases h
    | ok b =>
      rw [hpa, except_bind_ok] at h
      cases hrest : filterE p xs with
      | error e => rw [hrest] at h; cases h
      | ok rest =>
        rw [hrest, except_bind_ok] at h
        cases h
        intro y hy
        cases b with
        | true =>
          rcases List.mem_cons.mp hy with rfl | hy'
          · exact List.mem_cons_self y xs
          · exact List.mem_cons_of_mem a (ih rest hrest y hy')
        | false => exact List.mem_cons_of_mem a (ih rest hrest y hy)

/-- Every identifier returned by a successful `replacedOwnershipStatements`
is the statementID of some element of the comparison list. -/
theorem replacedOwnershipStatements_mem (n ip subj : Statement)
    (olds : List Statement) (res : List StatementId) (i : StatementId)
    (h : replacedOwnershipStatements n ip subj olds = .ok res) (hi : i ∈ res) :
    ∃ p ∈ olds, p.statementID = i := by
  unfold replacedOwnershipStatements at h
  cases hfe : filterE (ownershipReplacePred n ip subj olds) olds with
  | error e => rw [hfe] at h; cases h
  | ok m =>
    rw [hfe, except_bind_ok] at h
    cases h
    obtain ⟨p, hp, hpi⟩ := List.mem_map.mp hi
    exact ⟨p, filterE_subset _ _ _ hfe p hp, hpi⟩

/-! ## Emission invariants -/

/-- All replacement links of a statement point into `prev`. -/
def ReplacesFrom (prev : List Statement) (s : Statement) : Prop :=
  ∀ rs, s.replacesStatements = some rs → ∀ i ∈ rs, ∃ q ∈ prev, q.statementID = i

/-- Invariant tying an emitted list to the seen set and the fresh-identifier
counter: emitted identifiers are pairwise distinct, every emitted fresh
identifier is below the counter, and every emitted non-fresh identifier is a
member of the seen set. -/
def EmitInv (seen : List StatementId) (counter : Nat) (out : List Statement) : Prop :=
  (out.map Statement.statementID).Nodup ∧
  ∀ s ∈ out, (∀ n, s.statementID = .fresh n → n < counter) ∧
    ((∀ n, s.statementID ≠ .fresh n) → s.statementID ∈ seen)

/-- The empty output satisfies the invariant for any seen set and counter. -/
theorem emitInv_nil (seen : List StatementId) (counter : Nat) :
    EmitInv seen counter [] :=
  ⟨List.nodup_nil, fun s hs => absurd hs (List.not_mem_nil s)⟩

/-- The invariant is monotone in the seen set and the counter. -/
theorem emitInv_mono (seen seen' : List StatementId) (counter counter' : Nat)
    (out : List Statement) (hs : ∀ id ∈ seen, id ∈ seen') (hc : counter ≤ counter')
    (h : EmitInv seen counter out) : EmitInv seen' counter' out := by
  obtain ⟨hnd, hmem⟩ := h
  refine ⟨hnd, fun s hsmem => ?_⟩
  obtain ⟨h1, h2⟩ := hmem s hsmem
  exact ⟨fun n hn => lt_of_lt_of_le (h1 n hn) hc, fun hnf => hs _ (h2 hnf)⟩

/-- Appending a statement with a new, non-fresh identifier preserves the
invariant once its identifier joins the seen set. -/
theorem emitInv_push_hash (seen : List StatementId) (counter : Nat)
    (out : List Statement) (s : Statement)
    (h : EmitInv seen counter out) (hnf : ∀ n, s.statementID ≠ .fresh n)
    (hnew : s.statementID ∉ seen) :
    EmitInv (s.statementID :: seen) counter (out ++ [s]) := by
  obtain ⟨hnd, hmem⟩ := h
  constructor
  · rw [List.map_append, List.map_singleton]
    rw [List.nodup_append]
    refine ⟨hnd, List.nodup_singleton _, ?_⟩
    intro i hi hi'
    rw [List.mem_singleton] at hi'
    subst hi'
    obtain ⟨t, ht, hts⟩ := List.mem_map.mp hi
    obtain ⟨_, h2⟩ := hmem t ht
    have : t.statementID ∈ seen := by
      apply h2
      intro n hn
      exact hnf n (hts ▸ hn)
    exact hnew (hts ▸ this)
  · intro t ht
    rcases List.mem_append.mp ht with ht' | ht'
    · obtain ⟨h1, h2⟩ := hmem t ht'
      exact ⟨h1, fun hnf' => List.mem_cons_of_mem _ (h2 hnf')⟩
    · rw [List.mem_singleton] at ht'
      subst ht'
      exact ⟨fun n hn => absurd hn (hnf n), fun _ => List.mem_cons_self _ _⟩

/-- Appending a statement carrying the current fresh identifier preserves the
invariant once the counter moves past it. -/
theorem emitInv_push_fresh (seen : List StatementId) (counter : Nat)
    (out : List Statement) (s : Statement)
    (h : EmitInv seen counter out) (hid : s.statementID = .fresh counter) :
    EmitInv seen (counter + 1) (out ++ [s]) := by
  obtain ⟨hnd, hmem⟩ := h
  constructor
  · rw [List.map_append, List.map_singleton]
    rw [List.nodup_append]
    refine ⟨hnd, List.nodup_singleton _, ?_⟩
    intro i hi hi'
    rw [List.mem_singleton] at hi'
    subst hi'
    obtain ⟨t, ht, hts⟩ := List.mem_map.mp hi
    obtain ⟨h1, _⟩ := hmem t ht
    have := h1 counter (hts.trans hid)
    exact absurd this (lt_irrefl counter)
  · intro t ht
    rcases List.mem_append.mp ht with ht' | ht'
    · obtain ⟨h1, h2⟩ := hmem t ht'
      exact ⟨fun n hn => Nat.lt_succ_of_lt (h1 n hn), h2⟩
    · rw [List.mem_singleton] at ht'
      subst ht'
      constructor
      · intro n hn
        rw [hid] at hn
        cases hn
        exact Nat.lt_succ_self counter
      · intro hnf
        exact absurd hid (hnf counter)

/-! ## Characterization of the dedup steps -/

/-- `dedupStep` on an already-seen candidate. -/
theorem dedupStep_mem (st : RecState) (cand : Statement)
    (h : cand.statementID ∈ st.seen) : dedupStep st cand = (st, cand, false) := by
  unfold dedupStep
  rw [if_pos h]

/-- `dedupStep` on a new candidate. -/
theorem dedupStep_new (st : RecState) (cand : Statement)
    (h : cand.statementID ∉ st.seen) :
    dedupStep st cand = ({ st with seen := cand.statementID :: st.seen }
      , { cand with replacesStatements := some (replacedStatements cand st.prev) }
      , true) := by
  unfold dedupStep
  rw [if_neg h]

/-- `dedupOwnershipStep` on an already-seen candidate. -/
theorem dedupOwnershipStep_mem (st : RecState) (cand p c : Statement)
    (h : cand.statementID ∈ st.seen) :
    dedupOwnershipStep st cand p c = .ok (st, cand, false) := by
  unfold dedupOwnershipStep
  rw [if_pos h]

/-- `dedupOwnershipStep` on a new candidate whose replacement computation
succeeds. -/
theorem dedupOwnershipStep_new_ok (st : RecState) (cand p c : Statement)
    (repl : List StatementId) (h : cand.statementID ∉ st.seen)
    (hr : replacedOwnershipStatements cand p c st.prev = .ok repl) :
    dedupOwnershipStep st cand p c = .ok
      ({ st with seen := cand.statementID :: st.seen }
       , { cand with replacesStatements := some repl }
       , true) := by
  unfold dedupOwnershipStep
  rw [if_neg h, hr, except_bind_ok]

/-- Inversion of a successful `dedupOwnershipStep`. -/
theorem dedupOwnershipStep_ok_inv (st : RecState) (cand p c : Statement)
    (r : RecState × Statement × Bool) (h : dedupOwnershipStep st cand p c = .ok r) :
    (cand.statementID ∈ st.seen ∧ r = (st, cand, false)) ∨
    (cand.statementID ∉ st.seen ∧ ∃ repl,
      replacedOwnershipStatements cand p c st.prev = .ok repl ∧
      r = ({ st with seen := cand.statementID :: st.seen }
           , { cand with replacesStatements := some repl }
           , true)) := by
  by_cases hm : cand.statementID ∈ st.seen
  · rw [dedupOwnershipStep_mem st cand p c hm] at h
    cases h
    exact Or.inl ⟨hm, rfl⟩
  · unfold dedupOwnershipStep at h
    rw [if_neg hm] at h
    cases hr : replacedOwnershipStatements cand p c st.prev with
    | error e =>
      cases e
      rw [hr, except_bind_err] at h
      cases h
    | ok repl =>
      rw [hr, except_bind_ok] at h
      cases h
      exact Or.inr ⟨hm, repl, rfl, rfl⟩

/-! ## The master specification of one owner-loop iteration -/

/-- `boStep` written with explicit projections (definitional). -/
theorem boStep_reduce (src : SourceData) (cs : Statement) (st : RecState)
    (ts ns : List Statement) (bo : BOData) :
    boStep src cs st ts ns bo =
      (let pd := dedupStep st (mapPersonStatement { bo with hubungan_bo := none } src)
       let om := mapOwnershipOrControlStatement cs pd.2.1 bo src pd.1.store
       dedupOwnershipStep { pd.1 with store := om.2 } om.1 pd.2.1 cs >>= fun r =>
         .ok (r.1, (ts ++ [pd.2.1]) ++ [r.2.1],
           if r.2.2 then (if pd.2.2 then ns ++ [pd.2.1] else ns) ++ [r.2.1]
           else (if pd.2.2 then ns ++ [pd.2.1] else ns))) := rfl

/-- The statementID of a person candidate. -/
theorem mapPersonStatement_id (d : BOData) (s : SourceData) :
    (mapPersonStatement d s).statementID = .personHash d s := rfl

/-- A person candidate carries no replacement links yet. -/
theorem mapPersonStatement_replaces (d : BOData) (s : SourceData) :
    (mapPersonStatement d s).replacesStatements = none := rfl

/-- The statementID of an ownership candidate. -/
theorem mapOwnership_fst_id (c p : Statement) (d : BOData) (s : SourceData)
    (store : List Interest) :
    ((mapOwnershipOrControlStatement c p d s store).1).statementID
      = .ownershipHash c.statementID p.statementID d s := rfl

/-- An ownership candidate carries no replacement links yet. -/
theorem mapOwnership_fst_replaces (c p : Statement) (d : BOData) (s : SourceData)
    (store : List Interest) :
    ((mapOwnershipOrControlStatement c p d s store).1).replacesStatements = none := rfl

/-- Updating the replacement links leaves the statementID unchanged. -/
theorem withReplaces_id (x : Statement) (v : Option (List StatementId)) :
    ({ x with replacesStatements := v }).statementID = x.statementID := rfl

/-- A `personHash` identifier is not fresh. -/
theorem personHash_not_fresh (d : BOData) (s : SourceData) :
    ∀ n, StatementId.personHash d s ≠ .fresh n := fun n h => by cases h

/-- An `ownershipHash` identifier is not fresh. -/
theorem ownershipHash_not_fresh (a b : StatementId) (d : BOData) (s : SourceData) :
    ∀ n, StatementId.ownershipHash a b d s ≠ .fresh n := fun n h => by cases h

/-- A `companyHash` identifier is not fresh. -/
theorem companyHash_not_fresh (d : CompanyData) (loc : Option String) :
    ∀ n, StatementId.companyHash d loc ≠ .fresh n := fun n h => by cases h

/-- Updating the replacement links sets exactly that field. -/
theorem withReplaces_replaces (x : Statement) (v : Option (List StatementId)) :
    ({ x with replacesStatements := v }).replacesStatements = v := rfl

/-- Everything one owner-loop iteration does, in one statement: the two
candidates appended to the transaction list, their identifiers, state
component changes, which candidates were emitted, preservation of the
emission invariant, and the no-emission case when both candidates had been
seen before. -/
theorem boStep_spec (src : SourceData) (cs : Statement) (st : RecState)
    (ts ns : List Statement) (bo : BOData)
    (st' : RecState) (ts' ns' : List Statement)
    (h : boStep src cs st ts ns bo = .ok (st', ts', ns')) :
    ∃ p o : Statement,
      ts' = ts ++ [p, o]
      ∧ p.statementID = (mapPersonStatement { bo with hubungan_bo := none } src).statementID
      ∧ o.statementID = .ownershipHash cs.statementID p.statementID bo src
      ∧ st'.prev = st.prev
      ∧ st'.counter = st.counter
      ∧ (∀ id ∈ st.seen, id ∈ st'.seen)
      ∧ (∀ id ∈ st'.seen, id ∈ st.seen ∨ id = p.statementID ∨ id = o.statementID)
      ∧ p.statementID ∈ st'.seen
      ∧ o.statementID ∈ st'.seen
      ∧ ReplacesFrom st.prev p
      ∧ ReplacesFrom st.prev o
      ∧ (∀ s ∈ ns, s ∈ ns')
      ∧ (∀ s ∈ ns', s ∈ ns ∨ s = p ∨ s = o)
      ∧ (p.replacesStatements ≠ none → p ∈ ns')
      ∧ (o.replacesStatements ≠ none → o ∈ ns')
      ∧ (∀ out, EmitInv st.seen st.counter (out ++ ns)
          → EmitInv st'.seen st'.counter (out ++ ns'))
      ∧ (p.statementID ∈ st.seen → o.statementID ∈ st.seen
          → ns' = ns ∧ st'.seen = st.seen) := by
  rw [boStep_reduce] at h
  set p0 := mapPersonStatement { bo with hubungan_bo := none } src with hp0
  by_cases hp : p0.statementID ∈ st.seen
  · rw [dedupStep_mem st _ hp] at h
    simp only at h
    set om := mapOwnershipOrControlStatement cs p0 bo src st.store with hom
    set st2 : RecState := { st with store := om.2 } with hst2
    cases hd : dedupOwnershipStep st2 om.1 p0 cs with
    | error e => rw [hd] at h; cases e; cases h
    | ok r =>
      rw [hd, except_bind_ok] at h
      rcases dedupOwnershipStep_ok_inv _ _ _ _ _ hd with ⟨ho, hr⟩ | ⟨ho, repl, hrepl, hr⟩
      · subst hr
        simp only [Bool.false_eq_true, if_false] at h
        injection h with h
        injection h with h1 h23
        injection h23 with h2 h3
        subst h1; subst h2; subst h3
        refine ⟨p0, om.1, by simp, rfl, by rw [hom, mapOwnership_fst_id],
          rfl, rfl, fun id hid => hid, fun id hid => Or.inl hid, hp, ho, ?_, ?_,
          fun s hs => hs, fun s hs => Or.inl hs, ?_, ?_,
          fun out hi => hi, fun _ _ => ⟨rfl, rfl⟩⟩
        · intro rs hrs; rw [hp0, mapPersonStatement_replaces] at hrs; cases hrs
        · intro rs hrs; rw [hom, mapOwnership_fst_replaces] at hrs; cases hrs
        · intro hne; exact absurd (by rw [hp0, mapPersonStatement_replaces]) hne
        · intro hne; exact absurd (by rw [hom, mapOwnership_fst_replaces]) hne
      · subst hr
        simp only [if_true] at h
        injection h with h
        injection h with h1 h23
        injection h23 with h2 h3
        subst h1; subst h2; subst h3
        refine ⟨p0, { om.1 with replacesStatements := some repl },
          by simp, rfl, by rw [withReplaces_id, hom, mapOwnership_fst_id],
          rfl, rfl,
          fun id hid => List.mem_cons_of_mem _ hid, ?_,
          List.mem_cons_of_mem _ hp,
          by rw [withReplaces_id]; exact List.mem_cons_self _ _,
          ?_, ?_,
          fun s hs => List.mem_append_left _ hs, ?_, ?_,
          fun _ => List.mem_append_right _ (List.mem_singleton_self _),
          ?_, ?_⟩
        · intro id hid
          rcases List.mem_cons.mp hid with rfl | hid'
          · exact Or.inr (Or.inr (by rw [withReplaces_id]))
          · exact Or.inl hid'
        · intro rs hrs; rw [hp0, mapPersonStatement_replaces] at hrs; cases hrs
        · intro rs hrs
          rw [withReplaces_replaces] at hrs
          cases hrs
          intro i hi
          exact replacedOwnershipStatements_mem _ _ _ _ _ i hrepl hi
        · intro s hs
          rcases List.mem_append.mp hs with hs' | hs'
          · exact Or.inl hs'
          · exact Or.inr (Or.inr (List.mem_singleton.mp hs'))
        · intro hne
          exact absurd (by rw [hp0, mapPersonStatement_replaces]) hne
        · intro out hi
          rw [← List.append_assoc]
          refine emitInv_push_hash _ _ _ _ hi ?_ ?_
          · rw [withReplaces_id, hom, mapOwnership_fst_id]
            exact fun n => ownershipHash_not_fresh _ _ _ _ n
          · rw [withReplaces_id]; exact ho
        · intro _ h2
          rw [withReplaces_id] at h2
          exact absurd h2 ho
  · rw [dedupStep_new st _ hp] at h
    simp only at h
    set p1 : Statement := { p0 with
      replacesStatements := some (replacedStatements p0 st.prev) } with hp1
    set st1 : RecState := { st with seen := p0.statementID :: st.seen } with hst1
    set om := mapOwnershipOrControlStatement cs p1 bo src st1.store with hom
    set st2 : RecState := { st1 with store := om.2 } with hst2
    cases hd : dedupOwnershipStep st2 om.1 p1 cs with
    | error e => rw [hd] at h; cases e; cases h
    | ok r =>
      rw [hd, except_bind_ok] at h
      rcases dedupOwnershipStep_ok_inv _ _ _ _ _ hd with ⟨ho, hr⟩ | ⟨ho, repl, hrepl, hr⟩
      · subst hr
        simp only [Bool.false_eq_true, if_false, if_true] at h
        injection h with h
        injection h with h1 h23
        injection h23 with h2 h3
        subst h1; subst h2; subst h3
        refine ⟨p1, om.1,
          by simp, by rw [hp1, withReplaces_id],
          by rw [hom, mapOwnership_fst_id], rfl, rfl,
          fun id hid => List.mem_cons_of_mem _ hid, ?_, ?_, ho, ?_, ?_,
          fun s hs => List.mem_append_left _ hs, ?_,
          fun _ => List.mem_append_right _ (List.mem_singleton_self _), ?_, ?_, ?_⟩
        · intro id hid
          rcases List.mem_cons.mp hid with rfl | hid'
          · exact Or.inr (Or.inl (by rw [hp1, withReplaces_id]))
          · exact Or.inl hid'
        · rw [hp1, withReplaces_id]
          exact List.mem_cons_self _ _
        · intro rs hrs
          rw [hp1, withReplaces_replaces] at hrs
          cases hrs
          intro i hi
          exact replacedStatements_mem _ _ i hi
        · intro rs hrs; rw [hom, mapOwnership_fst_replaces] at hrs; cases hrs
        · intro s hs
          rcases List.mem_append.mp hs with hs' | hs'
          · exact Or.inl hs'
          · exact Or.inr (Or.inl (List.mem_singleton.mp hs'))
        · intro hne; exact absurd (by rw [hom, mapOwnership_fst_replaces]) hne
        · intro out hi
          rw [← List.append_assoc]
          refine emitInv_push_hash _ _ _ _ hi ?_ ?_
          · rw [hp1, withReplaces_id, hp0, mapPersonStatement_id]
            exact fun n => personHash_not_fresh _ _ n
          · rw [hp1, withReplaces_id]; exact hp
        · intro h1 _
          rw [hp1, withReplaces_id] at h1
          exact absurd h1 hp
      · subst hr
        simp only [if_true] at h
        injection h with h
        injection h with h1 h23
        injection h23 with h2 h3
        subst h1; subst h2; subst h3
        refine ⟨p1, { om.1 with replacesStatements := some repl },
          by simp, by rw [hp1, withReplaces_id],
          by rw [withReplaces_id, hom, mapOwnership_fst_id], rfl, rfl,
          fun id hid => List.mem_cons_of_mem _ (List.mem_cons_of_mem _ hid), ?_, ?_,
          by rw [withReplaces_id]; exact List.mem_cons_self _ _,
          ?_, ?_,
          fun s hs => List.mem_append_left _ (List.mem_append_left _ hs), ?_,
          fun _ => List.mem_append_left _
            (List.mem_append_right _ (List.mem_singleton_self _)),
          fun _ => List.mem_append_right _ (List.mem_singleton_self _), ?_, ?_⟩
        · intro id hid
          rcases List.mem_cons.mp hid with rfl | hid'
          · exact Or.inr (Or.inr (by rw [withReplaces_id]))
          · rcases List.mem_cons.mp hid' with rfl | hid''
            · exact Or.inr (Or.inl (by rw [hp1, withReplaces_id]))
            · exact Or.inl hid''
        · rw [hp1, withReplaces_id]
          exact List.mem_cons_of_mem _ (List.mem_cons_self _ _)
        · intro rs hrs
          rw [hp1, withReplaces_replaces] at hrs
          cases hrs
          intro i hi
          exact replacedStatements_mem _ _ i hi
        · intro rs hrs
          rw [withReplaces_replaces] at hrs
          cases hrs
          intro i hi
          exact replacedOwnershipStatements_mem _ _ _ _ _ i hrepl hi
        · intro s hs
          rcases List.mem_append.mp hs with hs' | hs'
          · rcases List.mem_append.mp hs' with hs'' | hs''
            · exact Or.inl hs''
            · exact Or.inr (Or.inl (List.mem_singleton.mp hs''))
          · exact Or.inr (Or.inr (List.mem_singleton.mp hs'))
        · intro out hi
          rw [← List.append_assoc, ← List.append_assoc]
          refine emitInv_push_hash _ _ _ _ ?_ ?_ ?_
          · have hid : p0.statementID = p1.statementID := by rw [hp1, withReplaces_id]
            rw [hid]
            refine emitInv_push_hash _ _ _ p1 hi ?_ ?_
            · rw [hp1, withReplaces_id, hp0, mapPersonStatement_id]
              exact fun n => personHash_not_fresh _ _ n
            · rw [hp1, withReplaces_id]
              exact hp
          · rw [withReplaces_id, hom, mapOwnership_fst_id]
            exact fun n => ownershipHash_not_fresh _ _ _ _ n
          · rw [withReplaces_id]; exact ho
        · intro h1 _
          rw [hp1, withReplaces_id] at h1
          exact absurd h1 hp

/-! ## Specification of the whole owner loop -/

/-- The statement identifiers of the candidates derived from a `data_bo`
list: for each owner record, its person statement's content identifier
followed by the ownership statement's content identifier. -/
def boCandidateIds (cid : StatementId) (src : SourceData) : List BOData → List StatementId
  | [] => []
  | bo :: bos =>
    (mapPersonStatement { bo with hubungan_bo := none } src).statementID
    :: StatementId.ownershipHash cid
        (mapPersonStatement { bo with hubungan_bo := none } src).statementID bo src
    :: boCandidateIds cid src bos

/-- `processBos` on a cons (definitional). -/
theorem processBos_cons (src : SourceData) (cs : Statement) (st : RecState)
    (ts ns : List Statement) (bo : BOData) (bos : List BOData) :
    processBos src cs st ts ns (bo :: bos)
      = boStep src cs st ts ns bo >>= fun r => processBos src cs r.1 r.2.1 r.2.2 bos := rfl

/-- Everything the owner loop does: candidate identifiers appended to the
transaction list, state component changes, monotonicity of emissions, the
replacement-link invariants, preservation of the emission invariant, and the
no-emission case when every candidate had been seen before. -/
theorem processBos_spec (src : SourceData) (cs : Statement) (bos : List BOData) :
    ∀ (st : RecState) (ts ns : List Statement) (st' : RecState) (ts' ns' : List Statement),
    processBos src cs st ts ns bos = .ok (st', ts', ns') →
      ts'.map Statement.statementID
          = ts.map Statement.statementID ++ boCandidateIds cs.statementID src bos
      ∧ st'.prev = st.prev
      ∧ st'.counter = st.counter
      ∧ (∀ id ∈ st.seen, id ∈ st'.seen)
      ∧ (∀ id ∈ st'.seen, id ∈ st.seen ∨ id ∈ boCandidateIds cs.statementID src bos)
      ∧ ((∀ s ∈ ts, s.statementID ∈ st.seen) → ∀ s ∈ ts', s.statementID ∈ st'.seen)
      ∧ ((∀ s ∈ ts, s.replacesStatements ≠ none → s ∈ ns)
          → ∀ s ∈ ts', s.replacesStatements ≠ none → s ∈ ns')
      ∧ (∀ s ∈ ns, s ∈ ns')
      ∧ ((∀ s ∈ ns, ReplacesFrom st.prev s) → ∀ s ∈ ns', ReplacesFrom st.prev s)
      ∧ (∀ out, EmitInv st.seen st.counter (out ++ ns)
          → EmitInv st'.seen st'.counter (out ++ ns'))
      ∧ ((∀ id ∈ boCandidateIds cs.statementID src bos, id ∈ st.seen)
          → ns' = ns ∧ st'.seen = st.seen) := by
  induction bos with
  | nil =>
    intro st ts ns st' ts' ns' h
    injection h with h
    injection h with h1 h23
    injection h23 with h2 h3
    subst h1; subst h2; subst h3
    exact ⟨by simp [boCandidateIds], rfl, rfl, fun id hid => hid,
      fun id hid => Or.inl hid, fun pre => pre, fun pre => pre,
      fun s hs => hs, fun pre => pre, fun out hi => hi, fun _ => ⟨rfl, rfl⟩⟩
  | cons bo bos ih =>
    intro st ts ns st' ts' ns' h
    rw [processBos_cons] at h
    cases hb : boStep src cs st ts ns bo with
    | error e => rw [hb] at h; cases e; cases h
    | ok r =>
      rw [hb, except_bind_ok] at h
      obtain ⟨st1, ts1, ns1⟩ := r
      obtain ⟨p, o, hts1, hpid, hoid, hprev1, hcnt1, hseenMono1, hseenInv1, hpSeen,
        hoSeen, hRFp, hRFo, hnsMono1, hnsInv1, hpEmit, hoEmit, hEmitInv1, hNoEmit1⟩ :=
        boStep_spec _ _ _ _ _ _ _ _ _ hb
      obtain ⟨hids, hprev, hcnt, hseenMono, hseenInv, hseenTs, hRepl, hnsMono, hRF,
        hEmit, hNoEmit⟩ := ih _ _ _ _ _ _ h
      refine ⟨?_, hprev.trans hprev1, hcnt.trans hcnt1,
        fun id hid => hseenMono id (hseenMono1 id hid), ?_, ?_, ?_,
        fun s hs => hnsMono s (hnsMono1 s hs), ?_, ?_, ?_⟩
      · rw [hids, hts1]
        simp only [List.map_append, List.map_cons, List.map_nil, List.cons_append,
          List.nil_append, List.append_assoc, boCandidateIds]
        rw [hpid, hoid, hpid]
      · intro id hid
        rcases hseenInv id hid with hid1 | hid1
        · rcases hseenInv1 id hid1 with hid2 | hid2 | hid2
          · exact Or.inl hid2
          · subst hid2
            rw [hpid]
            exact Or.inr (List.mem_cons_self _ _)
          · subst hid2
            rw [hoid, hpid]
            exact Or.inr (List.mem_cons_of_mem _ (List.mem_cons_self _ _))
        · exact Or.inr (List.mem_cons_of_mem _ (List.mem_cons_of_mem _ hid1))
      · intro pre
        refine hseenTs ?_
        intro s hs
        rw [hts1] at hs
        rcases List.mem_append.mp hs with hs' | hs'
        · exact hseenMono1 _ (pre s hs')
        · rcases List.mem_cons.mp hs' with rfl | hs''
          · exact hpSeen
          · rw [List.mem_singleton.mp hs'']
            exact hoSeen
      · intro pre
        refine hRepl ?_
        intro s hs hne
        rw [hts1] at hs
        rcases List.mem_append.mp hs with hs' | hs'
        · exact hnsMono1 s (pre s hs' hne)
        · rcases List.mem_cons.mp hs' with rfl | hs''
          · exact hpEmit hne
          · rw [List.mem_singleton.mp hs''] at hne ⊢
            exact hoEmit hne
      · intro pre
        have pre1 : ∀ s ∈ ns1, ReplacesFrom st1.prev s := by
          intro s hs
          rw [hprev1]
          rcases hnsInv1 s hs with hs' | hs' | hs'
          · exact pre s hs'
          · subst hs'; exact hRFp
          · subst hs'; exact hRFo
        intro s hs
        rw [← hprev1]
        exact hRF pre1 s hs
      · intro out hi
        exact hEmit out (hEmitInv1 out hi)
      · intro pre
        have hpmem : p.statementID ∈ st.seen := by
          rw [hpid]
          exact pre _ (List.mem_cons_self _ _)
        have homem : o.statementID ∈ st.seen := by
          rw [hoid, hpid]
          exact pre _ (List.mem_cons_of_mem _ (List.mem_cons_self _ _))
        obtain ⟨hns1, hseen1⟩ := hNoEmit1 hpmem homem
        subst hns1
        have pretail : ∀ id ∈ boCandidateIds cs.statementID src bos, id ∈ st1.seen := by
          intro id hid
          rw [hseen1]
          exact pre _ (List.mem_cons_of_mem _ (List.mem_cons_of_mem _ hid))
        obtain ⟨hns2, hseen2⟩ := hNoEmit pretail
        exact ⟨hns2, hseen2.trans hseen1⟩

/-! ## Specification of the closing pass -/

/-- `closurePass` on a cons (definitional). -/
theorem closurePass_cons (today : String) (ts : List Statement) (counter : Nat)
    (store : List Interest) (ps : Statement) (rest : List Statement) :
    closurePass today ts counter store (ps :: rest) =
      if ps.statementType = "ownershipOrControlStatement" then
        if coveredBy ts ps.statementID then closurePass today ts counter store rest
        else
          let next := closurePass today ts (counter + 1)
            (match ps.interestsRef with
             | some i => setEndDate today store i
             | none => store) rest
          (next.1, next.2.1,
            ({ ps with statementID := StatementId.fresh counter
                       replacesStatements := some [ps.statementID] }) :: next.2.2)
      else closurePass today ts counter store rest := rfl

/-- Everything the closing pass does: the counter only grows, every prior
ownership statement is either covered by the current candidates or closed by
a synthesized statement, every closing statement carries a fresh identifier
and replaces exactly one prior statement, the emission invariant is
preserved, and nothing is emitted when everything is covered. -/
theorem closurePass_spec (today : String) (ts : List Statement) :
    ∀ (prevList : List Statement) (counter : Nat) (store : List Interest),
      counter ≤ (closurePass today ts counter store prevList).1
      ∧ (∀ ps ∈ prevList, ps.statementType = "ownershipOrControlStatement" →
          coveredBy ts ps.statementID = true
          ∨ ∃ s ∈ (closurePass today ts counter store prevList).2.2,
              s.replacesStatements = some [ps.statementID]
              ∧ ∃ n, s.statementID = .fresh n)
      ∧ (∀ s ∈ (closurePass today ts counter store prevList).2.2,
          ∃ ps ∈ prevList, s.replacesStatements = some [ps.statementID]
            ∧ ∃ n, s.statementID = .fresh n)
      ∧ (∀ (seen : List StatementId) (out : List Statement), EmitInv seen counter out
          → EmitInv seen (closurePass today ts counter store prevList).1
              (out ++ (closurePass today ts counter store prevList).2.2))
      ∧ ((∀ ps ∈ prevList, ps.statementType = "ownershipOrControlStatement" →
            coveredBy ts ps.statementID = true)
          → closurePass today ts counter store prevList = (counter, store, [])) := by
  intro prevList
  induction prevList with
  | nil =>
    intro counter store
    refine ⟨Nat.le_refl _, fun ps hps => absurd hps (List.not_mem_nil ps),
      fun s hs => absurd hs (List.not_mem_nil s), ?_, fun _ => rfl⟩
    intro seen out hi
    rw [show closurePass today ts counter store [] = (counter, store, []) from rfl]
    simpa using hi
  | cons ps rest ih =>
    intro counter store
    by_cases hty : ps.statementType = "ownershipOrControlStatement"
    · by_cases hcov : coveredBy ts ps.statementID
      · rw [closurePass_cons, if_pos hty, if_pos hcov]
        obtain ⟨ihc, ihcov, ihcl, ihinv, ihall⟩ := ih counter store
        refine ⟨ihc, ?_, ?_, ihinv, ?_⟩
        · intro q hq hqty
          rcases List.mem_cons.mp hq with rfl | hq'
          · exact Or.inl hcov
          · exact ihcov q hq' hqty
        · intro s hs
          obtain ⟨q, hq, hrest⟩ := ihcl s hs
          exact ⟨q, List.mem_cons_of_mem _ hq, hrest⟩
        · intro pre
          exact ihall fun q hq => pre q (List.mem_cons_of_mem _ hq)
      · rw [closurePass_cons, if_pos hty, if_neg hcov]
        simp only
        obtain ⟨ihc, ihcov, ihcl, ihinv, ihall⟩ := ih (counter + 1)
          (match ps.interestsRef with
           | some i => setEndDate today store i
           | none => store)
        refine ⟨Nat.le_trans (Nat.le_succ counter) ihc, ?_, ?_, ?_, ?_⟩
        · intro q hq hqty
          rcases List.mem_cons.mp hq with rfl | hq'
          · exact Or.inr ⟨_, List.mem_cons_self _ _, rfl, counter, rfl⟩
          · rcases ihcov q hq' hqty with hcl | ⟨s, hs, hrest⟩
            · exact Or.inl hcl
            · exact Or.inr ⟨s, List.mem_cons_of_mem _ hs, hrest⟩
        · intro s hs
          rcases List.mem_cons.mp hs with rfl | hs'
          · exact ⟨ps, List.mem_cons_self _ _, rfl, counter, rfl⟩
          · obtain ⟨q, hq, hrest⟩ := ihcl s hs'
            exact ⟨q, List.mem_cons_of_mem _ hq, hrest⟩
        · intro seen out hi
          have h1 := emitInv_push_fresh seen counter out
            { ps with statementID := StatementId.fresh counter
                      replacesStatements := some [ps.statementID] } hi rfl
          have h2 := ihinv seen _ h1
          rw [List.append_assoc] at h2
          simpa using h2
        · intro pre
          exact absurd (pre ps (List.mem_cons_self _ _) hty) hcov
    · rw [closurePass_cons, if_neg hty]
      obtain ⟨ihc, ihcov, ihcl, ihinv, ihall⟩ := ih counter store
      refine ⟨ihc, ?_, ?_, ihinv, ?_⟩
      · intro q hq hqty
        rcases List.mem_cons.mp hq with rfl | hq'
        · exact absurd hqty hty
        · exact ihcov q hq' hqty
      · intro s hs
        obtain ⟨q, hq, hrest⟩ := ihcl s hs
        exact ⟨q, List.mem_cons_of_mem _ hq, hrest⟩
      · intro pre
        exact ihall fun q hq => pre q (List.mem_cons_of_mem _ hq)

/-! ## Specification of one transaction -/

/-- `coveredBy` holds iff some candidate has the identifier or some
candidate's replacement links contain it. -/
theorem coveredBy_iff (ts : List Statement) (i : StatementId) :
    coveredBy ts i = true ↔
      (∃ s ∈ ts, s.statementID = i)
      ∨ (∃ s ∈ ts, ∃ rs, s.replacesStatements = some rs ∧ i ∈ rs) := by
  unfold coveredBy
  rw [Bool.or_eq_true]
  constructor
  · intro h
    rcases h with h | h
    · obtain ⟨s, hs, hd⟩ := List.any_eq_true.mp h
      exact Or.inl ⟨s, hs, of_decide_eq_true hd⟩
    · obtain ⟨s, hs, hd⟩ := List.any_eq_true.mp h
      cases hrs : s.replacesStatements with
      | none => rw [hrs] at hd; cases hd
      | some rs =>
        rw [hrs] at hd
        obtain ⟨j, hj, hdj⟩ := List.any_eq_true.mp hd
        have := of_decide_eq_true hdj
        subst this
        exact Or.inr ⟨s, hs, rs, hrs, hj⟩
  · intro h
    rcases h with ⟨s, hs, hid⟩ | ⟨s, hs, rs, hrs, hin⟩
    · exact Or.inl (List.any_eq_true.mpr ⟨s, hs, decide_eq_true hid⟩)
    · refine Or.inr (List.any_eq_true.mpr ⟨s, hs, ?_⟩)
      rw [hrs]
      exact List.any_eq_true.mpr ⟨i, hin, decide_eq_true rfl⟩

/-- The statementID of a company candidate. -/
theorem mapCompanyStatement_id (d : CompanyData) (loc : Option String) (s : SourceData) :
    (mapCompanyStatement d loc s).statementID = .companyHash d loc := rfl

/-- A company candidate carries no replacement links yet. -/
theorem mapCompanyStatement_replaces (d : CompanyData) (loc : Option String) (s : SourceData) :
    (mapCompanyStatement d loc s).replacesStatements = none := rfl

/-- The statement identifiers of all candidates of one transaction: the
company statement's content identifier followed by the person/ownership
identifiers of each owner record. -/
def transactionCandidateIds (companyLocation : Option String) (t : Transaction) :
    List StatementId :=
  (mapCompanyStatement { nama_korporasi := t.nama_korporasi } companyLocation t.rest).statementID
  :: boCandidateIds
      (mapCompanyStatement { nama_korporasi := t.nama_korporasi } companyLocation t.rest).statementID
      t.rest t.data_bo

/-- `processTransaction` written with explicit projections (definitional). -/
theorem processTransaction_reduce (today : String) (companyLocation : Option String)
    (st : RecState) (t : Transaction) :
    processTransaction today companyLocation st t =
      (let pd := dedupStep st
        (mapCompanyStatement { nama_korporasi := t.nama_korporasi } companyLocation t.rest)
       processBos t.rest pd.2.1 pd.1 [pd.2.1] (if pd.2.2 then [pd.2.1] else []) t.data_bo
         >>= fun r =>
       let closed := closurePass today r.2.1 r.1.counter r.1.store r.1.prev
       Except.ok ({ r.1 with prev := r.2.1, counter := closed.1, store := closed.2.1 }
                  , r.2.2 ++ closed.2.2)) := rfl

/-- The part of the transaction specification that follows the company
dedup step: hypotheses `f1`–`f9` summarize what that step established. -/
theorem processTransaction_after_company (today : String) (t : Transaction)
    (st st1 : RecState) (cs' : Statement) (ns0 : List Statement)
    (st' : RecState) (ns : List Statement)
    (h : (processBos t.rest cs' st1 [cs'] ns0 t.data_bo >>= fun r =>
        let closed := closurePass today r.2.1 r.1.counter r.1.store r.1.prev
        Except.ok ({ r.1 with prev := r.2.1, counter := closed.1, store := closed.2.1 }
                   , r.2.2 ++ closed.2.2)) = .ok (st', ns))
    (f1 : st1.prev = st.prev) (f2 : st1.counter = st.counter)
    (f3 : ∀ id ∈ st.seen, id ∈ st1.seen)
    (f4 : ∀ id ∈ st1.seen, id ∈ st.seen ∨ id = cs'.statementID)
    (f5 : cs'.statementID ∈ st1.seen)
    (f6 : ∀ s ∈ ([cs'] : List Statement), s.replacesStatements ≠ none → s ∈ ns0)
    (f7 : ∀ s ∈ ns0, ReplacesFrom st.prev s)
    (f8 : ∀ out, EmitInv st.seen st.counter out → EmitInv st1.seen st1.counter (out ++ ns0))
    (f9 : cs'.statementID ∈ st.seen → ns0 = [] ∧ st1.seen = st.seen) :
    st'.prev.map Statement.statementID
        = cs'.statementID :: boCandidateIds cs'.statementID t.rest t.data_bo
    ∧ (∀ s ∈ st'.prev, s.statementID ∈ st'.seen)
    ∧ (∀ id ∈ st'.seen, id ∈ st.seen
        ∨ id ∈ cs'.statementID :: boCandidateIds cs'.statementID t.rest t.data_bo)
    ∧ (∀ id ∈ st.seen, id ∈ st'.seen)
    ∧ st.counter ≤ st'.counter
    ∧ (∀ s ∈ ns, ReplacesFrom st.prev s)
    ∧ (∀ out, EmitInv st.seen st.counter out → EmitInv st'.seen st'.counter (out ++ ns))
    ∧ (∀ ps ∈ st.prev, ps.statementType = "ownershipOrControlStatement" →
        (∀ s ∈ st'.prev, s.statementID ≠ ps.statementID) →
        ∃ s ∈ ns, ∃ rs, s.replacesStatements = some rs ∧ ps.statementID ∈ rs)
    ∧ ((∀ id ∈ cs'.statementID :: boCandidateIds cs'.statementID t.rest t.data_bo,
          id ∈ st.seen)
        → (∀ ps ∈ st.prev, ps.statementType = "ownershipOrControlStatement" →
            ps.statementID ∈ cs'.statementID :: boCandidateIds cs'.statementID t.rest t.data_bo)
        → ns = []) := by
  cases hpb : processBos t.rest cs' st1 [cs'] ns0 t.data_bo with
  | error e => rw [hpb] at h; cases e; cases h
  | ok r =>
    rw [hpb, except_bind_ok] at h
    obtain ⟨st2, ts2, ns2⟩ := r
    simp only at h
    injection h with h
    injection h with h1 h2
    subst h1; subst h2
    obtain ⟨hids, hprev, hcnt, hseenMono, hseenInv, hseenTs, hRepl, hnsMono, hRF,
      hEmit, hNoEmit⟩ := processBos_spec _ _ _ _ _ _ _ _ _ hpb
    obtain ⟨hcc, hccov, hccl, hcinv, hcall⟩ :=
      closurePass_spec today ts2 st2.prev st2.counter st2.store
    have hts2ids : ts2.map Statement.statementID
        = cs'.statementID :: boCandidateIds cs'.statementID t.rest t.data_bo := by
      rw [hids]
      rfl
    refine ⟨hts2ids, ?_, ?_, ?_, ?_, ?_, ?_, ?_, ?_⟩
    · intro s hs
      refine hseenTs ?_ s hs
      intro q hq
      rw [List.mem_singleton.mp hq]
      exact f5
    · intro id hid
      rcases hseenInv id hid with hid1 | hid1
      · rcases f4 id hid1 with hid2 | hid2
        · exact Or.inl hid2
        · exact Or.inr (hid2 ▸ List.mem_cons_self _ _)
      · exact Or.inr (List.mem_cons_of_mem _ hid1)
    · intro id hid
      exact hseenMono id (f3 id hid)
    · calc st.counter = st1.counter := f2.symm
        _ = st2.counter := hcnt.symm
        _ ≤ _ := hcc
    · intro s hs
      rcases List.mem_append.mp hs with hs' | hs'
      · have pre : ∀ q ∈ ns0, ReplacesFrom st1.prev q := by
          intro q hq
          rw [f1]
          exact f7 q hq
        have := hRF pre s hs'
        rw [f1] at this
        exact this
      · obtain ⟨ps, hps, hpsr, _⟩ := hccl s hs'
        intro rs hrs
        rw [hpsr] at hrs
        cases hrs
        intro i hi
        rw [List.mem_singleton.mp hi]
        refine ⟨ps, ?_, rfl⟩
        rw [hprev, f1] at hps
        exact hps
    · intro out hi
      have h1 := hEmit out (f8 out hi)
      have h2 := hcinv st2.seen (out ++ ns2) h1
      rw [List.append_assoc] at h2
      exact h2
    · intro ps hps hty habs
      have hps2 : ps ∈ st2.prev := by
        rw [hprev, f1]
        exact hps
      rcases hccov ps hps2 hty with hcov | ⟨s, hs, hrepl, _⟩
      · rcases (coveredBy_iff ts2 ps.statementID).mp hcov with ⟨s, hs, hid⟩ | ⟨s, hs, rs, hrs, hin⟩
        · exact absurd hid (habs s hs)
        · have hrepl : ∀ q ∈ ([cs'] : List Statement),
              q.replacesStatements ≠ none → q ∈ ns0 := f6
          have hmem : s ∈ ns2 := by
            refine hRepl hrepl s hs ?_
            rw [hrs]
            exact Option.some_ne_none rs
          exact ⟨s, List.mem_append_left _ hmem, rs, hrs, hin⟩
      · exact ⟨s, List.mem_append_right _ hs, [ps.statementID], hrepl,
          List.mem_singleton_self _⟩
    · intro pre1 pre2
      obtain ⟨hns0, hseen1⟩ := f9 (pre1 _ (List.mem_cons_self _ _))
      subst hns0
      have pretail : ∀ id ∈ boCandidateIds cs'.statementID t.rest t.data_bo,
          id ∈ st1.seen := by
        intro id hid
        rw [hseen1]
        exact pre1 _ (List.mem_cons_of_mem _ hid)
      obtain ⟨hns2, _⟩ := hNoEmit pretail
      subst hns2
      have hallcov : ∀ ps ∈ st2.prev, ps.statementType = "ownershipOrControlStatement" →
          coveredBy ts2 ps.statementID = true := by
        intro ps hps hty
        rw [hprev, f1] at hps
        have hmem : ps.statementID ∈ ts2.map Statement.statementID := by
          rw [hts2ids]
          exact pre2 ps hps hty
        obtain ⟨s, hs, hid⟩ := List.mem_map.mp hmem
        exact (coveredBy_iff ts2 ps.statementID).mpr (Or.inl ⟨s, hs, hid⟩)
      rw [hcall hallcov]
      rfl

/-- The transaction specification: the next `prevTransactionStatements` is
exactly the candidate set, every candidate identifier is in the seen set,
the seen set only grows and only by candidate identifiers, the counter only
grows, every emitted replacement link points into the previous transaction's
statement list, the emission invariant is preserved, every vanished prior
ownership statement is replaced or closed, and a fully-deduplicated
transaction emits nothing. -/
theorem processTransaction_spec (today : String) (companyLocation : Option String)
    (st : RecState) (t : Transaction) (st' : RecState) (ns : List Statement)
    (h : processTransaction today companyLocation st t = .ok (st', ns)) :
    st'.prev.map Statement.statementID = transactionCandidateIds companyLocation t
    ∧ (∀ s ∈ st'.prev, s.statementID ∈ st'.seen)
    ∧ (∀ id ∈ st'.seen, id ∈ st.seen ∨ id ∈ transactionCandidateIds companyLocation t)
    ∧ (∀ id ∈ st.seen, id ∈ st'.seen)
    ∧ st.counter ≤ st'.counter
    ∧ (∀ s ∈ ns, ReplacesFrom st.prev s)
    ∧ (∀ out, EmitInv st.seen st.counter out → EmitInv st'.seen st'.counter (out ++ ns))
    ∧ (∀ ps ∈ st.prev, ps.statementType = "ownershipOrControlStatement" →
        (∀ s ∈ st'.prev, s.statementID ≠ ps.statementID) →
        ∃ s ∈ ns, ∃ rs, s.replacesStatements = some rs ∧ ps.statementID ∈ rs)
    ∧ ((∀ id ∈ transactionCandidateIds companyLocation t, id ∈ st.seen)
        → (∀ ps ∈ st.prev, ps.statementType = "ownershipOrControlStatement" →
            ps.statementID ∈ transactionCandidateIds companyLocation t) → ns = []) := by
  rw [processTransaction_reduce] at h
  set cand := mapCompanyStatement { nama_korporasi := t.nama_korporasi } companyLocation t.rest
    with hcand
  by_cases hc : cand.statementID ∈ st.seen
  · rw [dedupStep_mem st _ hc] at h
    simp only [Bool.false_eq_true, if_false] at h
    have hTC : transactionCandidateIds companyLocation t
        = cand.statementID :: boCandidateIds cand.statementID t.rest t.data_bo := by
      rw [hcand]
      rfl
    rw [hTC]
    exact processTransaction_after_company today t st st cand [] st' ns h
      rfl rfl (fun id hid => hid) (fun id hid => Or.inl hid) hc
      (fun s hs hne => absurd (by rw [List.mem_singleton.mp hs, hcand,
        mapCompanyStatement_replaces]) hne)
      (fun s hs => absurd hs (List.not_mem_nil s))
      (fun out hi => by simpa using hi)
      (fun _ => ⟨rfl, rfl⟩)
  · rw [dedupStep_new st _ hc] at h
    simp only [if_true] at h
    set cand1 : Statement :=
      { cand with replacesStatements := some (replacedStatements cand st.prev) }
      with hcand1
    have hTC : transactionCandidateIds companyLocation t
        = cand1.statementID :: boCandidateIds cand1.statementID t.rest t.data_bo := by
      rw [hcand1, withReplaces_id, hcand]
      rfl
    rw [hTC]
    refine processTransaction_after_company today t st
      { st with seen := cand.statementID :: st.seen }
      cand1 [cand1] st' ns h rfl rfl (fun id hid => List.mem_cons_of_mem _ hid) ?_ ?_
      (fun s hs _ => hs) ?_ ?_ ?_
    · intro id hid
      rcases List.mem_cons.mp hid with rfl | hid'
      · exact Or.inr (by rw [hcand1, withReplaces_id])
      · exact Or.inl hid'
    · rw [hcand1, withReplaces_id]
      exact List.mem_cons_self _ _
    · intro s hs
      rw [List.mem_singleton.mp hs]
      intro rs hrs
      rw [hcand1, withReplaces_replaces] at hrs
      cases hrs
      intro i hi
      exact replacedStatements_mem _ _ i hi
    · intro out hi
      refine emitInv_push_hash _ _ _ _ hi ?_ ?_
      · rw [hcand1, withReplaces_id, hcand, mapCompanyStatement_id]
        exact fun n => companyHash_not_fresh _ _ n
      · rw [hcand1, withReplaces_id]
        exact hc
    · intro hmem
      rw [hcand1, withReplaces_id] at hmem
      exact absurd hmem hc

/-- `runTransactions` on a cons (definitional). -/
theorem runTransactions_cons (today : String) (loc : Option String) (st : RecState)
    (out : List Statement) (t : Transaction) (rest : List Transaction) :
    runTransactions today loc st out (t :: rest)
      = processTransaction today loc st t >>= fun r =>
          runTransactions today loc r.1 (out ++ r.2) rest := rfl

/-- The emission invariant is preserved along the whole fold. -/
theorem runTransactions_emitInv (today : String) (loc : Option String)
    (ts : List Transaction) :
    ∀ (st : RecState) (out : List Statement) (st' : RecState) (out' : List Statement),
    runTransactions today loc st out ts = .ok (st', out') →
    EmitInv st.seen st.counter out → EmitInv st'.seen st'.counter out' := by
  induction ts with
  | nil =>
    intro st out st' out' h hi
    injection h with h
    injection h with h1 h2
    subst h1; subst h2
    exact hi
  | cons t rest ih =>
    intro st out st' out' h hi
    rw [runTransactions_cons] at h
    cases hp : processTransaction today loc st t with
    | error e => rw [hp] at h; cases e; cases h
    | ok r =>
      rw [hp, except_bind_ok] at h
      obtain ⟨st1, ns⟩ := r
      obtain ⟨_, _, _, _, _, _, hEmit, _, _⟩ := processTransaction_spec _ _ _ _ _ _ hp
      exact ih _ _ _ _ h (hEmit out hi)

/-- C1: no silent loss.  For any transaction processed against a previous
statement list, every prior ownership statement whose identifier does not
occur among the candidate statements of this transaction (the next
`prevTransactionStatements`) is referenced by the `replacesStatements` of
some statement emitted for this transaction — either a matching replacement
or a synthesized closing statement, whose links are `[ps.statementID]` and
hence also contain it. -/
theorem processTransaction_no_silent_loss (today : String)
    (companyLocation : Option String) (st : RecState) (t : Transaction)
    (st' : RecState) (ns : List Statement)
    (h : processTransaction today companyLocation st t = .ok (st', ns))
    (ps : Statement) (hps : ps ∈ st.prev)
    (hty : ps.statementType = "ownershipOrControlStatement")
    (habs : ∀ s ∈ st'.prev, s.statementID ≠ ps.statementID) :
    ∃ s ∈ ns, ∃ rs, s.replacesStatements = some rs ∧ ps.statementID ∈ rs :=
  (processTransaction_spec today companyLocation st t st' ns h).2.2.2.2.2.2.2.1
    ps hps hty habs

/-- A previous-transaction state used by several witnesses: the previous
statement list is the company/person/ownership triple `oldsX`. -/
def stW : RecState := { seen := [], prev := oldsX, store := [], counter := 5 }

/-- The result of processing the ownerless transaction `tC` against `stW`. -/
def c1res : RecState × List Statement :=
  (processTransaction "2024-06-30" (some "Jakarta") stW tC).toOption.getD default

/-- Witness for `processTransaction_no_silent_loss` at a concrete input. -/
theorem processTransaction_no_silent_loss_witness :
    processTransaction "2024-06-30" (some "Jakarta") stW tC = .ok (c1res.1, c1res.2)
    ∧ prevOwnX ∈ stW.prev
    ∧ prevOwnX.statementType = "ownershipOrControlStatement"
    ∧ (∀ s ∈ c1res.1.prev, s.statementID ≠ prevOwnX.statementID)
    ∧ ∃ s ∈ c1res.2, ∃ rs, s.replacesStatements = some rs
        ∧ prevOwnX.statementID ∈ rs :=
  ⟨rfl, by decide, by decide, by decide,
   processTransaction_no_silent_loss "2024-06-30" (some "Jakarta") stW tC
     c1res.1 c1res.2 rfl prevOwnX (by decide) (by decide) (by decide)⟩

/-- C6: replacement locality.  Every identifier inside the
`replacesStatements` of a statement emitted for a transaction is the
statementID of some statement of the immediately preceding transaction's
full statement list (which is empty for the first transaction). -/
theorem processTransaction_replacement_locality (today : String)
    (companyLocation : Option String) (st : RecState) (t : Transaction)
    (st' : RecState) (ns : List Statement)
    (h : processTransaction today companyLocation st t = .ok (st', ns)) :
    ∀ s ∈ ns, ∀ rs, s.replacesStatements = some rs →
      ∀ i ∈ rs, ∃ p ∈ st.prev, p.statementID = i :=
  fun s hs rs hrs i hi =>
    (processTransaction_spec today companyLocation st t st' ns h).2.2.2.2.2.1
      s hs rs hrs i hi

/-- Witness for `processTransaction_replacement_locality` at a concrete
input. -/
theorem processTransaction_replacement_locality_witness :
    processTransaction "2024-06-30" (some "Jakarta") stW tC = .ok (c1res.1, c1res.2)
    ∧ ∀ s ∈ c1res.2, ∀ rs, s.replacesStatements = some rs →
        ∀ i ∈ rs, ∃ p ∈ stW.prev, p.statementID = i :=
  ⟨rfl, processTransaction_replacement_locality "2024-06-30" (some "Jakarta") stW tC
     c1res.1 c1res.2 rfl⟩

/-- C9: deduplication applies inside a single transaction as well — the
statements emitted for one transaction, from any starting state, have
pairwise distinct identifiers, because the seen set is consulted and updated
candidate by candidate. -/
theorem processTransaction_emitted_nodup (today : String)
    (companyLocation : Option String) (st : RecState) (t : Transaction)
    (st' : RecState) (ns : List Statement)
    (h : processTransaction today companyLocation st t = .ok (st', ns)) :
    (ns.map Statement.statementID).Nodup := by
  have hEmit := (processTransaction_spec today companyLocation st t st' ns h).2.2.2.2.2.2.1
  have := hEmit [] (emitInv_nil st.seen st.counter)
  rw [List.nil_append] at this
  exact this.1

/-- A transaction whose owner list contains the same owner record twice. -/
def tDup : Transaction := { tA with data_bo := [boX, boX] }

/-- The result of processing `tDup` from the initial state. -/
def c9res : RecState × List Statement :=
  (processTransaction "2024-01-01" (some "Jakarta") initState tDup).toOption.getD default

/-- Witness for `processTransaction_emitted_nodup`: a transaction listing
the same owner twice still emits each statement once. -/
theorem processTransaction_emitted_nodup_witness :
    processTransaction "2024-01-01" (some "Jakarta") initState tDup = .ok (c9res.1, c9res.2)
    ∧ (c9res.2.map Statement.statementID).Nodup :=
  ⟨rfl, processTransaction_emitted_nodup "2024-01-01" (some "Jakarta") initState tDup
     c9res.1 c9res.2 rfl⟩

/-- C4: global uniqueness.  No statementID appears more than once among the
statements emitted by `statements` (closing identifiers are modelled as
distinct from all content-derived identifiers, as the claim assumes of
uuidv4). -/
theorem statements_global_uniqueness (today : String) (data : InputData)
    (r : List Statement × List Interest) (h : statements today data = .ok r) :
    (r.1.map Statement.statementID).Nodup := by
  unfold statements at h
  cases hrt : runTransactions today data.kedudukan initState [] data.data_transaksi with
  | error e => rw [hrt] at h; cases e; cases h
  | ok rt =>
    rw [hrt, except_bind_ok] at h
    injection h with h
    subst h
    have := runTransactions_emitInv today data.kedudukan data.data_transaksi
      initState [] rt.1 rt.2 (by rw [hrt]) (emitInv_nil _ _)
    exact this.1

/-- Owner-loop candidate identifiers are content hashes, never fresh. -/
theorem boCandidateIds_not_fresh (cid : StatementId) (src : SourceData)
    (bos : List BOData) :
    ∀ id ∈ boCandidateIds cid src bos, ∀ n, id ≠ .fresh n := by
  induction bos with
  | nil => intro id hid; cases hid
  | cons bo bos ih =>
    intro id hid
    rcases List.mem_cons.mp hid with rfl | hid'
    · rw [mapPersonStatement_id]
      exact personHash_not_fresh _ _
    · rcases List.mem_cons.mp hid' with rfl | hid''
      · exact ownershipHash_not_fresh _ _ _ _
      · exact ih id hid''

/-- Transaction candidate identifiers are content hashes, never fresh. -/
theorem transactionCandidateIds_not_fresh (loc : Option String) (t : Transaction) :
    ∀ id ∈ transactionCandidateIds loc t, ∀ n, id ≠ .fresh n := by
  intro id hid
  rcases List.mem_cons.mp hid with rfl | hid'
  · rw [mapCompanyStatement_id]
    exact companyHash_not_fresh _ _
  · exact boCandidateIds_not_fresh _ _ _ id hid'

/-- C10: synthesized closing statements never enter the carried-forward
state.  The `prevTransactionStatements` baseline handed to the next
transaction is exactly the candidate set of this transaction — whose
identifiers are all content hashes, so no closing statement (fresh
identifier) is among them — and the seen set gains only content-hash
identifiers, never a closing identifier. -/
theorem processTransaction_closings_not_carried (today : String)
    (companyLocation : Option String) (st : RecState) (t : Transaction)
    (st' : RecState) (ns : List Statement)
    (h : processTransaction today companyLocation st t = .ok (st', ns)) :
    st'.prev.map Statement.statementID = transactionCandidateIds companyLocation t
    ∧ (∀ s ∈ st'.prev, ∀ n, s.statementID ≠ .fresh n)
    ∧ (∀ id ∈ st'.seen, id ∈ st.seen ∨ ∀ n, id ≠ .fresh n) := by
  obtain ⟨hids, _, hseenInv, _, _, _, _, _, _⟩ :=
    processTransaction_spec today companyLocation st t st' ns h
  refine ⟨hids, ?_, ?_⟩
  · intro s hs
    have : s.statementID ∈ transactionCandidateIds companyLocation t := by
      rw [← hids]
      exact List.mem_map_of_mem _ hs
    exact transactionCandidateIds_not_fresh companyLocation t _ this
  · intro id hid
    rcases hseenInv id hid with hid' | hid'
    · exact Or.inl hid'
    · exact Or.inr (transactionCandidateIds_not_fresh companyLocation t id hid')

/-- Witness for `processTransaction_closings_not_carried` at a concrete
input. -/
theorem processTransaction_closings_not_carried_witness :
    processTransaction "2024-06-30" (some "Jakarta") stW tC = .ok (c1res.1, c1res.2)
    ∧ (c1res.1.prev.map Statement.statementID
        = transactionCandidateIds (some "Jakarta") tC
       ∧ (∀ s ∈ c1res.1.prev, ∀ n, s.statementID ≠ .fresh n)
       ∧ (∀ id ∈ c1res.1.seen, id ∈ stW.seen ∨ ∀ n, id ≠ .fresh n)) :=
  ⟨rfl, processTransaction_closings_not_carried "2024-06-30" (some "Jakarta") stW tC
     c1res.1 c1res.2 rfl⟩

/-- C7 (amended): processing the same transaction twice in a row — all
per-transaction fields identical, including those carried into the content
hashes through the source data — emits nothing the second time. -/
theorem processTransaction_identical_twice_no_emission (today : String)
    (loc : Option String) (st0 : RecState) (t : Transaction)
    (st1 : RecState) (ns1 : List Statement) (st2 : RecState) (ns2 : List Statement)
    (h1 : processTransaction today loc st0 t = .ok (st1, ns1))
    (h2 : processTransaction today loc st1 t = .ok (st2, ns2)) :
    ns2 = [] := by
  obtain ⟨hids1, hseen1, _⟩ := processTransaction_spec _ _ _ _ _ _ h1
  have hnoemit := (processTransaction_spec _ _ _ _ _ _ h2).2.2.2.2.2.2.2.2
  refine hnoemit ?_ ?_
  · intro id hid
    rw [← hids1] at hid
    obtain ⟨s, hs, hsid⟩ := List.mem_map.mp hid
    exact hsid ▸ hseen1 s hs
  · intro ps hps _
    rw [← hids1]
    exact List.mem_map_of_mem _ hps

/-- First run of `tA` from the initial state. -/
def c7r1 : RecState × List Statement :=
  (processTransaction "2024-01-01" (some "Jakarta") initState tA).toOption.getD default

/-- Second run, on the transaction that differs from `tA` only in the
transaction number carried in the source data. -/
def c7r2 : RecState × List Statement :=
  (processTransaction "2024-01-01" (some "Jakarta") c7r1.1 tB).toOption.getD default

/-- Counterexample to C7 as stated: two successive transactions with
identical company name/address and the identical owner, differing only in
the per-transaction source fields (the transaction number), make the second
transaction emit two statements — the person and ownership content hashes
include the source data — not zero. -/
theorem statements_c7_counterexample :
    tB = { tA with rest := srcB }
    ∧ srcB = { srcA with other := [("no_transaksi", "2")] }
    ∧ processTransaction "2024-01-01" (some "Jakarta") initState tA = .ok c7r1
    ∧ processTransaction "2024-01-01" (some "Jakarta") c7r1.1 tB = .ok c7r2
    ∧ c7r2.2.length = 2 :=
  ⟨rfl, rfl, rfl, rfl, rfl⟩

/-- Second run of the very same transaction `tA`. -/
def c7s2 : RecState × List Statement :=
  (processTransaction "2024-01-01" (some "Jakarta") c7r1.1 tA).toOption.getD default

/-- Witness for `processTransaction_identical_twice_no_emission` at a
concrete input. -/
theorem processTransaction_identical_twice_no_emission_witness :
    processTransaction "2024-01-01" (some "Jakarta") initState tA = .ok (c7r1.1, c7r1.2)
    ∧ processTransaction "2024-01-01" (some "Jakarta") c7r1.1 tA = .ok (c7s2.1, c7s2.2)
    ∧ c7s2.2 = [] :=
  ⟨rfl, rfl,
   processTransaction_identical_twice_no_emission "2024-01-01" (some "Jakarta")
     initState tA c7r1.1 c7r1.2 c7s2.1 c7s2.2 rfl rfl⟩

/-- The whole-run input for C4's witness: the two-transaction input above. -/
def exC7 : InputData := { kedudukan := some "Jakarta", data_transaksi := [tA, tB] }

/-- The emitted output and final interest store on `exC7`. -/
def c4res : List Statement × List Interest :=
  (statements "2024-01-01" exC7).toOption.getD default

/-- Witness for `statements_global_uniqueness` at a concrete input. -/
theorem statements_global_uniqueness_witness :
    statements "2024-01-01" exC7 = .ok c4res
    ∧ (c4res.1.map Statement.statementID).Nodup :=
  ⟨rfl, statements_global_uniqueness "2024-01-01" exC7 c4res rfl⟩

/-- The input for the C3 code-bug exhibit: one transaction with one owner,
then a transaction with no owners (the ownership relationship disappears
without replacement, so a closing statement is synthesized). -/
def exC3 : InputData := { kedudukan := some "Jakarta", data_transaksi := [tA, tC] }

/-- The run of `statements` on `exC3`. -/
def c3run : Except Unit (List Statement × List Interest) := statements "2024-06-30" exC3

/-- The `Object.assign` shallow-copy aliasing, exhibited on `exC3`: the
output has four statements; the third (index 2) is the ownership statement
emitted for the first transaction, a content-hash identifier pointing at
interest cell 0; the fourth (index 3) is the synthesized closing statement,
with a fresh identifier, replacing the third and pointing at the very same
interest cell 0; and that shared cell's end date is set — so the previously
emitted ownership statement's interest now carries the end date too. -/
theorem statements_c3_shallow_copy_bug :
    (c3run.toOption.map (fun r => r.1.length) = some 4)
    ∧ (c3run.toOption.bind (fun r => (r.1.get? 2).map (fun s => s.statementType))
        = some "ownershipOrControlStatement")
    ∧ (c3run.toOption.bind (fun r => (r.1.get? 2).map (fun s => s.interestsRef))
        = some (some 0))
    ∧ (c3run.toOption.bind (fun r => (r.1.get? 3).map
        (fun s => (s.statementID, s.interestsRef)))
        = some (.fresh 0, some 0))
    ∧ (c3run.toOption.bind (fun r => (r.1.get? 2).bind (fun s2 =>
        (r.1.get? 3).map (fun s3 =>
          decide (s3.replacesStatements = some [s2.statementID]))))
        = some true)
    ∧ (c3run.toOption.bind (fun r => (r.2.get? 0).map (fun it => it.endDate))
        = some (some "2024-06-30")) :=
  ⟨rfl, rfl, rfl, rfl, rfl, rfl⟩

/-- An owner record with no tax number (`npwp` absent). -/
def boNoNpwp1 : BOData := { boX with nama_lengkap := some "Alice", npwp := none }

/-- A different owner — different name and identity-card number — whose
tax number is also absent. -/
def boNoNpwp2 : BOData :=
  { boX with nama_lengkap := some "Bob", npwp := none, nomor_identitas := some "777" }

/-- The person statement derived from the first owner. -/
def personNoNpwp1 : Statement := mapPersonStatement boNoNpwp1 srcA

/-- The person statement derived from the second owner. -/
def personNoNpwp2 : Statement := mapPersonStatement boNoNpwp2 srcB

/-- Witness for `matchingIdentifiers_absent_id` at a concrete input: two
person statements of different people, both missing their tax number, match
through the `ID-DJP` identifier whose id value is absent on both sides. -/
theorem matchingIdentifiers_absent_id_witness :
    personNoNpwp2.statementType = personNoNpwp1.statementType
    ∧ ({ scheme := "ID-DJP", schemeName := some "Director General of Taxes"
         , id := none } : Identifier) ∈ personNoNpwp2.identifiers
    ∧ ({ scheme := "ID-DJP", schemeName := some "Director General of Taxes"
         , id := none } : Identifier) ∈ personNoNpwp1.identifiers
    ∧ (matchingIdentifiers personNoNpwp2 personNoNpwp1 = true
       ∧ personNoNpwp1.statementID ∈ replacedStatements personNoNpwp2 [personNoNpwp1]) :=
  ⟨by decide, by decide, by decide,
   matchingIdentifiers_absent_id personNoNpwp2 personNoNpwp1 "ID-DJP"
     (some "Director General of Taxes") (some "Director General of Taxes")
     (by decide) (by decide) (by decide)⟩
